import Mathlib

set_option autoImplicit false

/-!
# AMF (adaptive matrix factorization): embedding of `c_AMF.cpp`

Scalars (`double`, `long double`) are modelled by an arbitrary linearly ordered
field `F` with exact arithmetic, except at the two places where the `double` of the
source decides a claim. The `return` of `sigmoid` converts its quotient to `double`:
the conversion is the parameter `toDouble`, and `roundDouble` in the concrete instances.
The quotient `lossValue / numSample` is an `ExtDouble`: `+inf`, `-inf` or NaN when
`numSample` is 0. The other divisions, by an observed value and by `eu[i] + es[j]`, are
those of the field. The library function `exp` is a parameter; where a property of it
is needed it is a hypothesis that `Real.exp` meets.
Buffers (`double *`) are functions `Nat → F`; a `double **` produced by
`vector2Matrix` is the view `fun i j => vector (i * col + j)`. The dimensions are
natural numbers, `maxIter` is an `Int` as in the source.
The calls of `random_shuffle` are a parameter `shuffle`, indexed by the epoch.
-/

namespace CAMF

/-- Counted loop `for (i = 0; i < n; i++) s = body i s`. -/
def forLoop {σ : Type} (body : Nat → σ → σ) : Nat → σ → σ
  | 0, s => s
  | n + 1, s => body n (forLoop body n s)

/-- The constant `EPS = 1e-8`. -/
def EPS {F : Type} [LinearOrderedField F] : F := 1e-8

/-- Source: `inline double square(double x)`. -/
def square {F : Type} [LinearOrderedField F] (x : F) : F := x * x

/-- Source: `double sigmoid(long double x)`, `return 1 / (1 + exp(-x))`: the quotient is
formed in `long double` and converted to the return type `double`; `toDouble` is that
conversion. -/
def sigmoid {F : Type} [LinearOrderedField F] (exp toDouble : F → F) (x : F) : F :=
  toDouble (1 / (1 + exp (-x)))

/-- Source: `long double grad_sigmoid(long double x)`, `1 / (2 + exp(-x) + exp(x))`. -/
def grad_sigmoid {F : Type} [LinearOrderedField F] (exp : F → F) (x : F) : F :=
  1 / (2 + exp (-x) + exp x)

/-- Source: `dotProduct`; the accumulator `product` starts at 0. -/
def dotProduct {F : Type} [LinearOrderedField F] (vec1 vec2 : Nat → F) (len : Nat) : F :=
  forLoop (fun i product => product + vec1 i * vec2 i) len 0

/-- Source: `vector2Matrix`; row `i` is the pointer `vector + i * col`. -/
def vector2Matrix {F : Type} (vector : Nat → F) (_row col : Nat) : Nat → Nat → F :=
  fun i j => vector (i * col + j)

/-- The caller-provided storage of `AMF`. -/
structure Mem (F : Type) where
  removedData : Nat → F
  Udata : Nat → F
  Sdata : Nat → F
  p : Nat → F
  q : Nat → F
  predData : Nat → F

/-- The assignment `predMatrix[i][j] = sigmoid(p[i] + q[j] + dotProduct(U[i], S[j], dim))`
under its guard, the body of the inner loop of `getPredMatrix`. -/
def predEntry {F : Type} [LinearOrderedField F] (exp toDouble : F → F) (flag : Bool)
    (numUser numService dim : Nat) (i j : Nat) (m : Mem F) : Mem F :=
  if flag = true ∨ |vector2Matrix m.removedData numUser numService i j| > EPS then
    let value := sigmoid exp toDouble (m.p i + m.q j +
      dotProduct (vector2Matrix m.Udata numUser dim i)
        (vector2Matrix m.Sdata numService dim j) dim)
    { m with predData := Function.update m.predData (i * numService + j) value }
  else m

/-- Source: `getPredMatrix`. -/
def getPredMatrix {F : Type} [LinearOrderedField F] (exp toDouble : F → F) (flag : Bool)
    (numUser numService dim : Nat) (m : Mem F) : Mem F :=
  forLoop (fun i m => forLoop (fun j m => predEntry exp toDouble flag numUser numService dim i j m)
    numService m) numUser m

/-- Source: `loss`. -/
def loss {F : Type} [LinearOrderedField F] (lmda : F) (numUser numService dim : Nat)
    (m : Mem F) : F :=
  let removedMatrix := vector2Matrix m.removedData numUser numService
  let predMatrix := vector2Matrix m.predData numUser numService
  let U := vector2Matrix m.Udata numUser dim
  let S := vector2Matrix m.Sdata numService dim
  let cost := forLoop (fun i loss => forLoop (fun j loss =>
      if |removedMatrix i j| > EPS then
        loss + 0.5 * square ((removedMatrix i j - predMatrix i j) / removedMatrix i j)
      else loss) numService loss) numUser 0
  let regUS := forLoop (fun k loss =>
      forLoop (fun j loss => loss + 0.5 * lmda * square (S j k)) numService
        (forLoop (fun i loss => loss + 0.5 * lmda * square (U i k)) numUser loss)) dim cost
  let regP := forLoop (fun i loss => loss + 0.5 * lmda * square (m.p i)) numUser regUS
  forLoop (fun j loss => loss + 0.5 * lmda * square (m.q j)) numService regP

/-- Source: `typedef pair<pair<int, int>, double> SAMPLE`; the fields are
`first.first`, `first.second` and `second`. -/
structure Sample (F : Type) where
  i : Nat
  j : Nat
  r : F

/-- The first loop nest of `AMF`: the vector `samples` and the counter `numSample`. -/
def extractSamples {F : Type} [LinearOrderedField F] (removedData : Nat → F)
    (numUser numService : Nat) : List (Sample F) × Nat :=
  let removedMatrix := vector2Matrix removedData numUser numService
  forLoop (fun i acc => forLoop (fun j acc =>
      if |removedMatrix i j| > EPS then
        (acc.1 ++ [Sample.mk i j (removedMatrix i j)], acc.2 + 1)
      else acc) numService acc) numUser ([], 0)

/-- A `double` that is a number, or one of the results of a division by zero: the
values the variable `lossValue` of `AMF` can take. -/
inductive ExtDouble (F : Type) where
  | num (x : F)
  | posInf
  | negInf
  | nan

/-- The quotient `lossValue / numSample` of `AMF`, `numSample` being an `int` converted
to `double`: a division by zero gives `+inf` for a positive dividend, `-inf` for a
negative one and NaN for zero. -/
def divCount {F : Type} [LinearOrderedField F] (x : F) (numSample : Nat) : ExtDouble F :=
  if numSample = 0 then
    if 0 < x then ExtDouble.posInf else if x < 0 then ExtDouble.negInf else ExtDouble.nan
  else ExtDouble.num (x / (numSample : F))

/-- The test `lossValue > convergeThreshold`: true for `+inf`, false for `-inf` and for
NaN. -/
def exceeds {F : Type} [LinearOrderedField F] (lossValue : ExtDouble F)
    (convergeThreshold : F) : Bool :=
  match lossValue with
  | ExtDouble.num x => decide (x > convergeThreshold)
  | ExtDouble.posInf => true
  | ExtDouble.negInf => false
  | ExtDouble.nan => false

/-- The storage and the local variables of `AMF` that live across the `while` loop. -/
structure Locals (F : Type) where
  mem : Mem F
  samples : List (Sample F)
  eu : Nat → F
  es : Nat → F
  lossValue : ExtDouble F
  iter : Nat

/-- The local constant `minIter = 30` of `AMF`. -/
def minIter : Nat := 30

/-- One pass of the loop `for (int k = 0; k < dim; k++)` of `AMF`: both gradients are
computed before `U[i][k]` and `S[j][k]` are assigned. -/
def gradStep {F : Type} [LinearOrderedField F] (numUser numService dim : Nat)
    (lmda eta : F) (i j : Nat) (wi wj pValue rValue grad_sigmoid_qos : F)
    (k : Nat) (m : Mem F) : Mem F :=
  let U := vector2Matrix m.Udata numUser dim
  let S := vector2Matrix m.Sdata numService dim
  let gradU := wi * (pValue - rValue) * grad_sigmoid_qos * S j k + lmda * U i k
  let gradS := wj * (pValue - rValue) * grad_sigmoid_qos * U i k + lmda * S j k
  let m1 : Mem F := { m with Udata := Function.update m.Udata (i * dim + k) (U i k - eta * gradU) }
  { m1 with Sdata := Function.update m1.Sdata (j * dim + k) (S j k - eta * gradS) }

/-- The body of the loop over the samples in `AMF`, for the sample `spInstance`:
confidence updates, then gradient descent updates. -/
def sgdStep {F : Type} [LinearOrderedField F] (exp toDouble : F → F) (numUser numService dim : Nat)
    (lmda eta beta : F) (st : Locals F) (spInstance : Sample F) : Locals F :=
  let i := spInstance.i
  let j := spInstance.j
  let rValue := spInstance.r
  let U := vector2Matrix st.mem.Udata numUser dim
  let S := vector2Matrix st.mem.Sdata numService dim
  let qos := dotProduct (U i) (S j) dim + st.mem.p i + st.mem.q j
  let pValue := sigmoid exp toDouble qos
  let eij := |pValue - rValue| / rValue
  let wi := st.eu i / (st.eu i + st.es j)
  let wj := st.es j / (st.eu i + st.es j)
  let eu := Function.update st.eu i (beta * wi * eij + (1 - beta * wi) * st.eu i)
  let es := Function.update st.es j (beta * wj * eij + (1 - beta * wj) * st.es j)
  let grad_sigmoid_qos := grad_sigmoid exp qos
  let m1 := forLoop (gradStep numUser numService dim lmda eta i j wi wj pValue rValue
    grad_sigmoid_qos) dim st.mem
  let gradP := wi * (pValue - rValue) * grad_sigmoid_qos + lmda * m1.p i
  let gradQ := wi * (pValue - rValue) * grad_sigmoid_qos + lmda * m1.q j
  let m2 : Mem F := { m1 with p := Function.update m1.p i (m1.p i - eta * gradP) }
  let m3 : Mem F := { m2 with q := Function.update m2.q j (m2.q j - eta * gradQ) }
  { st with mem := m3, eu := eu, es := es }

/-- The body of the `while` loop of `AMF` after the `maxIter` check and up to the
assignment of `lossValue`: shuffle, one pass over the samples (`random_shuffle`
keeps the size of the vector, so the pass visits every element of it in order),
`getPredMatrix(false, ...)`, `loss(...)` and the division by `numSample`. -/
def epochBody {F : Type} [LinearOrderedField F] (exp toDouble : F → F)
    (shuffle : Nat → List (Sample F) → List (Sample F)) (numUser numService dim : Nat)
    (lmda eta beta : F) (numSample : Nat) (st : Locals F) : Locals F :=
  let shuffled := shuffle st.iter st.samples
  let st1 := shuffled.foldl (sgdStep exp toDouble numUser numService dim lmda eta beta)
    { st with samples := shuffled }
  let m := getPredMatrix exp toDouble false numUser numService dim st1.mem
  let lossValue := loss lmda numUser numService dim m
  { st1 with mem := m, lossValue := divCount lossValue numSample }

/-- One full epoch: `epochBody` followed by `iter++`. -/
def epoch {F : Type} [LinearOrderedField F] (exp toDouble : F → F)
    (shuffle : Nat → List (Sample F) → List (Sample F)) (numUser numService dim : Nat)
    (lmda eta beta : F) (numSample : Nat) (st : Locals F) : Locals F :=
  let st1 := epochBody exp toDouble shuffle numUser numService dim lmda eta beta numSample st
  { st1 with iter := st.iter + 1 }

/-- The `while` loop of `AMF`:
`while (lossValue > convergeThreshold || iter < minIter) { if (iter >= maxIter) break; ... iter++; }`. -/
def amfLoop {F : Type} [LinearOrderedField F] (exp toDouble : F → F)
    (shuffle : Nat → List (Sample F) → List (Sample F)) (numUser numService dim : Nat)
    (lmda : F) (maxIter : Int) (convergeThreshold eta beta : F) (numSample : Nat)
    (st : Locals F) : Locals F :=
  if exceeds st.lossValue convergeThreshold = true ∨ st.iter < minIter then
    if (st.iter : Int) ≥ maxIter then st
    else
      amfLoop exp toDouble shuffle numUser numService dim lmda maxIter convergeThreshold eta beta
        numSample (epoch exp toDouble shuffle numUser numService dim lmda eta beta numSample st)
  else st
termination_by (maxIter - (st.iter : Int)).toNat
decreasing_by
  simp only [epoch]
  omega

/-- The state of `AMF` on entry to the `while` loop: `iter = 0`, `lossValue = 1e10`,
`eu` and `es` filled with 1. -/
def initLocals {F : Type} [LinearOrderedField F] (m : Mem F) (numUser numService : Nat) :
    Locals F :=
  { mem := m
    samples := (extractSamples m.removedData numUser numService).1
    eu := fun _ => 1
    es := fun _ => 1
    lossValue := ExtDouble.num 1e10
    iter := 0 }

/-- The state of `AMF` on exit from the `while` loop. -/
def fit {F : Type} [LinearOrderedField F] (exp toDouble : F → F)
    (shuffle : Nat → List (Sample F) → List (Sample F)) (m : Mem F)
    (numUser numService dim : Nat) (lmda : F) (maxIter : Int)
    (convergeThreshold eta beta : F) : Locals F :=
  amfLoop exp toDouble shuffle numUser numService dim lmda maxIter convergeThreshold eta beta
    (extractSamples m.removedData numUser numService).2 (initLocals m numUser numService)

/-- Source: `AMF`; the result is the caller's storage on return. The flag `debugMode`
only prints and is left out. -/
def AMF {F : Type} [LinearOrderedField F] (exp toDouble : F → F)
    (shuffle : Nat → List (Sample F) → List (Sample F)) (m : Mem F)
    (numUser numService dim : Nat) (lmda : F) (maxIter : Int)
    (convergeThreshold eta beta : F) : Mem F :=
  getPredMatrix exp toDouble true numUser numService dim
    (fit exp toDouble shuffle m numUser numService dim lmda maxIter convergeThreshold eta beta).mem

/-- The value `getPredMatrix` stores at the flat index `x` of `predData`. -/
def cellValue {F : Type} [LinearOrderedField F] (exp toDouble : F → F) (numService dim : Nat)
    (m : Mem F) (x : Nat) : F :=
  sigmoid exp toDouble (m.p (x / numService) + m.q (x % numService) +
    dotProduct (fun k => m.Udata (x / numService * dim + k))
      (fun k => m.Sdata (x % numService * dim + k)) dim)

/-- The observed matrix `[[0.5, 0], [0, 0.5]]` of the concrete scenario, as a flat
row-major buffer, with all factors, biases and predictions zero. -/
def scenarioMem (F : Type) [LinearOrderedField F] : Mem F :=
  { removedData := fun x => if x = 0 ∨ x = 3 then 0.5 else 0
    Udata := fun _ => 0
    Sdata := fun _ => 0
    p := fun _ => 0
    q := fun _ => 0
    predData := fun _ => 0 }

/-- The shuffle that leaves the order of the samples as it is. -/
def idShuffle {F : Type} : Nat → List (Sample F) → List (Sample F) := fun _ l => l

/-- The observed entries of one row, left to right. -/
def observedRow {F : Type} [LinearOrderedField F] (removedData : Nat → F)
    (numUser numService i : Nat) : List (Sample F) :=
  (List.range numService).filterMap (fun j =>
    if |vector2Matrix removedData numUser numService i j| > EPS then
      some (Sample.mk i j (vector2Matrix removedData numUser numService i j))
    else none)

/-- The observed entries of the matrix, row by row. -/
def observedSamples {F : Type} [LinearOrderedField F] (removedData : Nat → F)
    (numUser numService : Nat) : List (Sample F) :=
  (List.range numUser).flatMap (observedRow removedData numUser numService)

/-- Row-major order on the positions of two samples. -/
def rowMajorLt {F : Type} (a b : Sample F) : Prop :=
  a.i < b.i ∨ (a.i = b.i ∧ a.j < b.j)

/-- The loss as the specification words it: the sum over the observed positions of
half the squared relative error, plus `0.5 * lmda` times the sum of the squares of all
components of `U`, `S`, `p` and `q`. -/
def lossSpec {F : Type} [LinearOrderedField F] (lmda : F) (numUser numService dim : Nat)
    (m : Mem F) : F :=
  (∑ i ∈ Finset.range numUser, ∑ j ∈ Finset.range numService,
      if |vector2Matrix m.removedData numUser numService i j| > EPS then
        0.5 * ((vector2Matrix m.removedData numUser numService i j -
            vector2Matrix m.predData numUser numService i j) /
          vector2Matrix m.removedData numUser numService i j) ^ 2
      else 0) +
    0.5 * lmda *
      ((∑ i ∈ Finset.range numUser, ∑ k ∈ Finset.range dim,
          (vector2Matrix m.Udata numUser dim i k) ^ 2) +
        (∑ j ∈ Finset.range numService, ∑ k ∈ Finset.range dim,
          (vector2Matrix m.Sdata numService dim j k) ^ 2) +
        (∑ i ∈ Finset.range numUser, (m.p i) ^ 2) +
        (∑ j ∈ Finset.range numService, (m.q j) ^ 2))

/-- Storage in which every buffer is filled with 1: every entry is observed and
predicted exactly. -/
def onesMem (F : Type) [LinearOrderedField F] : Mem F :=
  { removedData := fun _ => 1
    Udata := fun _ => 1
    Sdata := fun _ => 1
    p := fun _ => 1
    q := fun _ => 1
    predData := fun _ => 1 }

/-- The `while` loop of `AMF` is left in state `st`: its condition
`lossValue > convergeThreshold || iter < minIter` is false, or the `break` on
`iter >= maxIter` is taken. -/
def loopExits {F : Type} [LinearOrderedField F] (maxIter : Int) (convergeThreshold : F)
    (st : Locals F) : Prop :=
  ¬ (exceeds st.lossValue convergeThreshold = true ∨ st.iter < minIter) ∨
    (st.iter : Int) ≥ maxIter

/-- The state of `AMF` after `n` epochs have been executed from the initial state. -/
def afterEpochs {F : Type} [LinearOrderedField F] (exp toDouble : F → F)
    (shuffle : Nat → List (Sample F) → List (Sample F)) (m : Mem F)
    (numUser numService dim : Nat) (lmda eta beta : F) (n : Nat) : Locals F :=
  (epoch exp toDouble shuffle numUser numService dim lmda eta beta
    (extractSamples m.removedData numUser numService).2)^[n] (initLocals m numUser numService)

/-- The value `qos` of the per-sample update at position `(i, j)`:
`U[i]·S[j] + p[i] + q[j]`, the dot product written as a sum over the `dim` components. -/
def qosAt {F : Type} [LinearOrderedField F] (numUser numService dim : Nat) (m : Mem F)
    (i j : Nat) : F :=
  (∑ k ∈ Finset.range dim,
    vector2Matrix m.Udata numUser dim i k * vector2Matrix m.Sdata numService dim j k) +
    m.p i + m.q j

/-- The prediction `pred = sigmoid(qos)` at position `(i, j)`. -/
def predAt {F : Type} [LinearOrderedField F] (exp toDouble : F → F) (numUser numService dim : Nat)
    (m : Mem F) (i j : Nat) : F :=
  sigmoid exp toDouble (qosAt numUser numService dim m i j)

/-- The relative error `eij = |pred - r| / r` of a sample. -/
def eijAt {F : Type} [LinearOrderedField F] (exp toDouble : F → F) (numUser numService dim : Nat)
    (m : Mem F) (sp : Sample F) : F :=
  |predAt exp toDouble numUser numService dim m sp.i sp.j - sp.r| / sp.r

/-- The blending weight `wi = eu[i] / (eu[i] + es[j])`. -/
def wiAt {F : Type} [LinearOrderedField F] (st : Locals F) (i j : Nat) : F :=
  st.eu i / (st.eu i + st.es j)

/-- The blending weight `wj = es[j] / (eu[i] + es[j])`. -/
def wjAt {F : Type} [LinearOrderedField F] (st : Locals F) (i j : Nat) : F :=
  st.es j / (st.eu i + st.es j)

/-- The common factor `(pred - r) * grad_sigmoid(qos)` of the gradients of a sample. -/
def errGrad {F : Type} [LinearOrderedField F] (exp toDouble : F → F) (numUser numService dim : Nat)
    (m : Mem F) (sp : Sample F) : F :=
  (predAt exp toDouble numUser numService dim m sp.i sp.j - sp.r) *
    grad_sigmoid exp (qosAt numUser numService dim m sp.i sp.j)

/-- The state inside the epoch that starts in state `st`, after the first `k` samples
of the shuffled vector have been processed. -/
def samplePass {F : Type} [LinearOrderedField F] (exp toDouble : F → F)
    (shuffle : Nat → List (Sample F) → List (Sample F)) (numUser numService dim : Nat)
    (lmda eta beta : F) (st : Locals F) (k : Nat) : Locals F :=
  ((shuffle st.iter st.samples).take k).foldl
    (sgdStep exp toDouble numUser numService dim lmda eta beta)
    { st with samples := shuffle st.iter st.samples }

/-- A 2 x 2 problem whose only observed entry is `(0, 0)`: user 1 and service 1 have no
observation. All factors and biases are 1. -/
def sparseMem (F : Type) [LinearOrderedField F] : Mem F :=
  { removedData := fun x => if x = 0 then 0.5 else 0
    Udata := fun _ => 1
    Sdata := fun _ => 1
    p := fun _ => 1
    q := fun _ => 1
    predData := fun _ => 0 }

/-- A 1 x 1 problem whose single observed value is `0.01`, with zero factors and
biases, so that the first prediction is `sigmoid(0) = 0.5`. -/
def tinyMem (F : Type) [LinearOrderedField F] : Mem F :=
  { removedData := fun _ => 0.01
    Udata := fun _ => 0
    Sdata := fun _ => 0
    p := fun _ => 0
    q := fun _ => 0
    predData := fun _ => 0 }

/-- A 2 x 2 problem without any observed entry; all factors and biases are 1. -/
def emptyMem (F : Type) [LinearOrderedField F] : Mem F :=
  { removedData := fun _ => 0
    Udata := fun _ => 1
    Sdata := fun _ => 1
    p := fun _ => 1
    q := fun _ => 1
    predData := fun _ => 0 }

/-- The state `st` with the content of the prediction buffer replaced by `f`. -/
def setPred {F : Type} (f : Nat → F) (st : Locals F) : Locals F :=
  { st with mem := { st.mem with predData := f } }

/-- Conversion of a number to `double`, as at the `return` of `sigmoid`: round to
nearest, ties to even, with a 53-bit significand and exponents from -1022 up (gradual
underflow); overflow to infinity is not modelled. -/
def roundDouble {F : Type} [LinearOrderedField F] [FloorRing F] (y : F) : F :=
  let e : Int := max (Int.log 2 |y|) (-1022)
  let ulp : F := (2 : F) ^ (e - 52)
  let t : F := y / ulp
  let n : Int := ⌊t⌋
  let nearest : Int :=
    if t - (n : F) < 1 / 2 then n
    else if 1 / 2 < t - (n : F) then n + 1
    else if n % 2 = 0 then n else n + 1
  (nearest : F) * ulp

theorem roundDouble_half : roundDouble (1 / 2 : ℝ) = 1 / 2 := by
  have hlog : Int.log 2 |(1 / 2 : ℝ)| = -1 := by
    have h : |(1 / 2 : ℝ)| = ((2 : ℕ) : ℝ) ^ (-1 : ℤ) := by
      rw [abs_of_pos (by norm_num)]
      norm_num
    rw [h, Int.log_zpow (by norm_num)]
  unfold roundDouble
  simp only [hlog]
  have he : max (-1 : ℤ) (-1022) - 52 = -53 := by decide
  rw [he]
  have ht : (1 / 2 : ℝ) / (2 : ℝ) ^ (-53 : ℤ) = ((2 ^ 52 : ℤ) : ℝ) := by
    rw [zpow_neg]
    norm_num
  rw [ht, Int.floor_intCast]
  norm_num


/-- The quotient at logit 0 is one half, which is a double. -/
theorem sigmoid_zero : sigmoid Real.exp roundDouble 0 = 1 / 2 := by
  unfold sigmoid
  rw [neg_zero, Real.exp_zero]
  norm_num
  exact roundDouble_half

/-! ## Loops and the prediction generator -/

theorem predEntry_eq {F : Type} [LinearOrderedField F] (exp toDouble : F → F) (flag : Bool)
    (numUser numService dim i j : Nat) (hj : j < numService) (m : Mem F) (f : Nat → F) :
    predEntry exp toDouble flag numUser numService dim i j { m with predData := f } =
      { m with predData :=
          if flag = true ∨ |m.removedData (i * numService + j)| > EPS then
            Function.update f (i * numService + j) (cellValue exp toDouble numService dim m (i *
                numService + j))
          else f } := by
  have h1 : (i * numService + j) / numService = i := by
    rw [Nat.add_comm, Nat.add_mul_div_right _ _ (by omega : 0 < numService),
      Nat.div_eq_of_lt hj, Nat.zero_add]
  have h2 : (i * numService + j) % numService = j := by
    rw [Nat.add_comm, Nat.add_mul_mod_self_right, Nat.mod_eq_of_lt hj]
  unfold predEntry cellValue
  simp only [vector2Matrix, h1, h2]
  split_ifs <;> rfl

theorem getPredRow_eq {F : Type} [LinearOrderedField F] (exp toDouble : F → F) (flag : Bool)
    (numUser numService dim i : Nat) (m : Mem F) (f : Nat → F) :
    forLoop (fun j t => predEntry exp toDouble flag numUser numService dim i j t) numService
        { m with predData := f } =
      { m with predData := fun x =>
          if i * numService ≤ x ∧ x < i * numService + numService ∧
              (flag = true ∨ |m.removedData x| > EPS) then
            cellValue exp toDouble numService dim m x
          else f x } := by
  have key : ∀ n, n ≤ numService →
      forLoop (fun j t => predEntry exp toDouble flag numUser numService dim i j t) n
          { m with predData := f } =
        { m with predData := fun x =>
            if i * numService ≤ x ∧ x < i * numService + n ∧
                (flag = true ∨ |m.removedData x| > EPS) then
              cellValue exp toDouble numService dim m x
            else f x } := by
    intro n
    induction n with
    | zero =>
      intro _
      simp only [forLoop]
      congr 1
      funext x
      have h : ¬ (i * numService ≤ x ∧ x < i * numService + 0 ∧
          (flag = true ∨ |m.removedData x| > EPS)) := by
        intro h
        omega
      rw [if_neg h]
    | succ n ih =>
      intro hn
      have hlt : n < numService := hn
      simp only [forLoop]
      rw [ih (Nat.le_of_lt hlt), predEntry_eq exp toDouble flag numUser numService dim i n hlt]
      congr 1
      funext x
      by_cases hx : x = i * numService + n
      · subst hx
        by_cases hg : flag = true ∨ |m.removedData (i * numService + n)| > EPS
        · simp [hg]
        · simp [hg]
      · by_cases hg : flag = true ∨ |m.removedData (i * numService + n)| > EPS
        · simp only [hg, if_true, Function.update_noteq hx]
          have : (x < i * numService + (n + 1)) ↔ (x < i * numService + n) := by omega
          simp only [this]
        · simp only [hg, if_false]
          have : (x < i * numService + (n + 1)) ↔ (x < i * numService + n) := by omega
          simp only [this]
  exact key numService (Nat.le_refl _)

/-- Closed form of `getPredMatrix`: only `predData` changes, and exactly at the flat
indices of the matrix whose guard holds. -/
theorem getPredMatrix_eq {F : Type} [LinearOrderedField F] (exp toDouble : F → F) (flag : Bool)
    (numUser numService dim : Nat) (m : Mem F) :
    getPredMatrix exp toDouble flag numUser numService dim m =
      { m with predData := fun x =>
          if x < numUser * numService ∧ (flag = true ∨ |m.removedData x| > EPS) then
            cellValue exp toDouble numService dim m x
          else m.predData x } := by
  unfold getPredMatrix
  have key : ∀ n,
      forLoop (fun i t => forLoop (fun j t => predEntry exp toDouble flag numUser numService dim i
          j t)
          numService t) n m =
        { m with predData := fun x =>
            if x < n * numService ∧ (flag = true ∨ |m.removedData x| > EPS) then
              cellValue exp toDouble numService dim m x
            else m.predData x } := by
    intro n
    induction n with
    | zero => simp [forLoop]
    | succ n ih =>
      simp only [forLoop]
      rw [ih, getPredRow_eq]
      congr 1
      funext x
      have hmul : (n + 1) * numService = n * numService + numService := Nat.succ_mul _ _
      by_cases hg : flag = true ∨ |m.removedData x| > EPS
      · by_cases h1 : x < n * numService
        · have h2 : ¬ (n * numService ≤ x) := by omega
          have h3 : x < (n + 1) * numService := by omega
          simp [hg, h1, h2, h3]
        · by_cases h3 : x < (n + 1) * numService
          · have h2 : n * numService ≤ x ∧ x < n * numService + numService := by omega
            simp [hg, h1, h2, h3]
          · have h2 : ¬ (x < n * numService + numService) := by omega
            simp [hg, h1, h2, h3]
      · have h1 : ¬ (flag = true) := fun h => hg (Or.inl h)
        have h2 : ¬ (|m.removedData x| > EPS) := fun h => hg (Or.inr h)
        simp [h1, h2]
  exact key numUser

theorem flatIndex_lt {numUser numService i j : Nat} (hi : i < numUser) (hj : j < numService) :
    i * numService + j < numUser * numService := by
  have h1 : (i + 1) * numService ≤ numUser * numService := Nat.mul_le_mul_right _ hi
  have h2 : (i + 1) * numService = i * numService + numService := Nat.succ_mul _ _
  omega

theorem cellValue_flat {F : Type} [LinearOrderedField F] (exp toDouble : F → F)
    (numUser numService dim i j : Nat) (hj : j < numService) (m : Mem F) :
    cellValue exp toDouble numService dim m (i * numService + j) =
      sigmoid exp toDouble (m.p i + m.q j +
        dotProduct (vector2Matrix m.Udata numUser dim i)
          (vector2Matrix m.Sdata numService dim j) dim) := by
  have h1 : (i * numService + j) / numService = i := by
    rw [Nat.add_comm, Nat.add_mul_div_right _ _ (by omega : 0 < numService),
      Nat.div_eq_of_lt hj, Nat.zero_add]
  have h2 : (i * numService + j) % numService = j := by
    rw [Nat.add_comm, Nat.add_mul_mod_self_right, Nat.mod_eq_of_lt hj]
  unfold cellValue
  simp only [h1, h2]
  rfl

/-! ## The prediction generator: claims C2 to C4 -/

theorem AMF_predData {F : Type} [LinearOrderedField F] (exp toDouble : F → F)
    (shuffle : Nat → List (Sample F) → List (Sample F)) (m : Mem F)
    (numUser numService dim : Nat) (lmda : F) (maxIter : Int)
    (convergeThreshold eta beta : F) (i j : Nat) (hi : i < numUser) (hj : j < numService) :
    vector2Matrix (AMF exp toDouble shuffle m numUser numService dim lmda maxIter convergeThreshold
        eta beta).predData numUser numService i j =
      cellValue exp toDouble numService dim
        (fit exp toDouble shuffle m numUser numService dim lmda maxIter convergeThreshold eta
            beta).mem
        (i * numService + j) := by
  unfold AMF
  rw [getPredMatrix_eq]
  simp only [vector2Matrix]
  rw [if_pos ⟨flatIndex_lt hi hj, by simp⟩]

theorem getPredMatrix_readOnly {F : Type} [LinearOrderedField F] (exp toDouble : F → F) (flag :
    Bool)
    (numUser numService dim : Nat) (m : Mem F) :
    (getPredMatrix exp toDouble flag numUser numService dim m).removedData = m.removedData ∧
    (getPredMatrix exp toDouble flag numUser numService dim m).Udata = m.Udata ∧
    (getPredMatrix exp toDouble flag numUser numService dim m).Sdata = m.Sdata ∧
    (getPredMatrix exp toDouble flag numUser numService dim m).p = m.p ∧
    (getPredMatrix exp toDouble flag numUser numService dim m).q = m.q := by
  rw [getPredMatrix_eq]
  exact ⟨rfl, rfl, rfl, rfl, rfl⟩

/-- C2: every entry of the prediction matrix that `AMF` returns, observed or missing,
equals `sigmoid(p[i] + q[j] + dotProduct(U[i], S[j], dim))` computed from the `U`, `S`,
`p` and `q` that the same call returns. -/
theorem AMF_prediction_eq {F : Type} [LinearOrderedField F] (exp toDouble : F → F)
    (shuffle : Nat → List (Sample F) → List (Sample F)) (m : Mem F)
    (numUser numService dim : Nat) (lmda : F) (maxIter : Int)
    (convergeThreshold eta beta : F) (i j : Nat) (hi : i < numUser) (hj : j < numService) :
    vector2Matrix (AMF exp toDouble shuffle m numUser numService dim lmda maxIter convergeThreshold
        eta beta).predData numUser numService i j =
      sigmoid exp toDouble
        ((AMF exp toDouble shuffle m numUser numService dim lmda maxIter convergeThreshold
            eta beta).p i +
          (AMF exp toDouble shuffle m numUser numService dim lmda maxIter convergeThreshold
            eta beta).q j +
          dotProduct
            (vector2Matrix (AMF exp toDouble shuffle m numUser numService dim lmda maxIter
              convergeThreshold eta beta).Udata numUser dim i)
            (vector2Matrix (AMF exp toDouble shuffle m numUser numService dim lmda maxIter
              convergeThreshold eta beta).Sdata numService dim j) dim) := by
  rw [AMF_predData exp toDouble shuffle m numUser numService dim lmda maxIter convergeThreshold
    eta beta i j hi hj, cellValue_flat exp toDouble numUser numService dim i j hj]
  obtain ⟨_, hU, hS, hp, hq⟩ := getPredMatrix_readOnly exp toDouble true numUser numService dim
    (fit exp toDouble shuffle m numUser numService dim lmda maxIter convergeThreshold eta beta).mem
  unfold AMF
  rw [hU, hS, hp, hq]

theorem AMF_prediction_eq_witness :
    vector2Matrix (AMF Real.exp roundDouble idShuffle (scenarioMem ℝ) 2 2 1 0.01 100 1e-4
        0.05 0.5).predData 2 2 1 0 =
      sigmoid Real.exp roundDouble
        ((AMF Real.exp roundDouble idShuffle (scenarioMem ℝ) 2 2 1 0.01 100 1e-4 0.05 0.5).p 1 +
          (AMF Real.exp roundDouble idShuffle (scenarioMem ℝ) 2 2 1 0.01 100 1e-4 0.05 0.5).q 0 +
          dotProduct
            (vector2Matrix (AMF Real.exp roundDouble idShuffle (scenarioMem ℝ) 2 2 1 0.01 100 1e-4
              0.05 0.5).Udata 2 1 1)
            (vector2Matrix (AMF Real.exp roundDouble idShuffle (scenarioMem ℝ) 2 2 1 0.01 100 1e-4
              0.05 0.5).Sdata 2 1 0) 1) :=
  AMF_prediction_eq Real.exp roundDouble idShuffle (scenarioMem ℝ) 2 2 1 0.01 100 1e-4 0.05 0.5 1 0
    (by decide) (by decide)

/-- C3: at every coordinate `(i, j)` of the matrix with `|removedMatrix[i][j]| > 1e-8`,
`getPredMatrix` with `flag = true` leaves the same value as `getPredMatrix` with
`flag = false` run on the same factors and biases, whatever the two output buffers held
before. -/
theorem getPredMatrix_full_eq_observed {F : Type} [LinearOrderedField F] (exp toDouble : F → F)
    (numUser numService dim : Nat) (m : Mem F) (predData0 : Nat → F) (i j : Nat)
    (hi : i < numUser) (hj : j < numService)
    (hobs : |vector2Matrix m.removedData numUser numService i j| > EPS) :
    vector2Matrix (getPredMatrix exp toDouble true numUser numService dim m).predData
        numUser numService i j =
      vector2Matrix (getPredMatrix exp toDouble false numUser numService dim
        { m with predData := predData0 }).predData numUser numService i j := by
  rw [getPredMatrix_eq, getPredMatrix_eq]
  simp only [vector2Matrix] at hobs ⊢
  rw [if_pos ⟨flatIndex_lt hi hj, by simp⟩, if_pos ⟨flatIndex_lt hi hj, Or.inr hobs⟩]
  rfl

theorem scenario_observed_00 :
    |vector2Matrix (scenarioMem ℝ).removedData 2 2 0 0| > (EPS : ℝ) := by
  norm_num [vector2Matrix, scenarioMem, EPS, abs_of_pos]

theorem getPredMatrix_full_eq_observed_witness :
    vector2Matrix (getPredMatrix Real.exp roundDouble true 2 2 1 (scenarioMem ℝ)).predData
        2 2 0 0 =
      vector2Matrix (getPredMatrix Real.exp roundDouble false 2 2 1
        { scenarioMem ℝ with predData := fun _ => 7 }).predData 2 2 0 0 :=
  getPredMatrix_full_eq_observed Real.exp roundDouble 2 2 1 (scenarioMem ℝ) (fun _ => 7) 0 0
    (by decide) (by decide) scenario_observed_00

/-- C4: `getPredMatrix` with `flag = false` leaves `predMatrix[i][j]` as it was at every
coordinate with `|removedMatrix[i][j]| <= 1e-8`; in both modes it leaves `predData`
beyond the matrix, and `removedData`, `Udata`, `Sdata`, `p` and `q`, unchanged. -/
theorem getPredMatrix_frame {F : Type} [LinearOrderedField F] (exp toDouble : F → F)
    (numUser numService dim : Nat) (m : Mem F) (i j : Nat)
    (hmiss : |vector2Matrix m.removedData numUser numService i j| ≤ EPS) :
    vector2Matrix (getPredMatrix exp toDouble false numUser numService dim m).predData
        numUser numService i j = vector2Matrix m.predData numUser numService i j ∧
    ∀ flag : Bool,
      (∀ x, numUser * numService ≤ x →
        (getPredMatrix exp toDouble flag numUser numService dim m).predData x = m.predData x) ∧
      (getPredMatrix exp toDouble flag numUser numService dim m).removedData = m.removedData ∧
      (getPredMatrix exp toDouble flag numUser numService dim m).Udata = m.Udata ∧
      (getPredMatrix exp toDouble flag numUser numService dim m).Sdata = m.Sdata ∧
      (getPredMatrix exp toDouble flag numUser numService dim m).p = m.p ∧
      (getPredMatrix exp toDouble flag numUser numService dim m).q = m.q := by
  constructor
  · rw [getPredMatrix_eq]
    simp only [vector2Matrix] at hmiss ⊢
    rw [if_neg]
    rintro ⟨_, h | h⟩
    · exact absurd h (by decide)
    · exact absurd h (not_lt.mpr hmiss)
  · intro flag
    refine ⟨?_, getPredMatrix_readOnly exp toDouble flag numUser numService dim m⟩
    intro x hx
    rw [getPredMatrix_eq]
    simp only
    rw [if_neg]
    rintro ⟨h, _⟩
    omega

theorem scenario_missing_01 :
    |vector2Matrix (scenarioMem ℝ).removedData 2 2 0 1| ≤ (EPS : ℝ) := by
  norm_num [vector2Matrix, scenarioMem, EPS, abs_of_pos]

theorem getPredMatrix_frame_witness :
    vector2Matrix (getPredMatrix Real.exp roundDouble false 2 2 1 (scenarioMem ℝ)).predData
        2 2 0 1 = vector2Matrix (scenarioMem ℝ).predData 2 2 0 1 :=
  (getPredMatrix_frame Real.exp roundDouble 2 2 1 (scenarioMem ℝ) 0 1 scenario_missing_01).1

/-! ## The sample extractor: claim C5 -/

theorem extractRow_eq {F : Type} [LinearOrderedField F] (removedData : Nat → F)
    (numUser numService i : Nat) (acc : List (Sample F) × Nat) :
    forLoop (fun j acc =>
        if |vector2Matrix removedData numUser numService i j| > EPS then
          (acc.1 ++ [Sample.mk i j (vector2Matrix removedData numUser numService i j)],
            acc.2 + 1)
        else acc) numService acc =
      (acc.1 ++ observedRow removedData numUser numService i,
        acc.2 + (observedRow removedData numUser numService i).length) := by
  unfold observedRow
  have key : ∀ k,
      forLoop (fun j acc =>
          if |vector2Matrix removedData numUser numService i j| > EPS then
            (acc.1 ++ [Sample.mk i j (vector2Matrix removedData numUser numService i j)],
              acc.2 + 1)
          else acc) k acc =
        (acc.1 ++ (List.range k).filterMap (fun j =>
            if |vector2Matrix removedData numUser numService i j| > EPS then
              some (Sample.mk i j (vector2Matrix removedData numUser numService i j))
            else none),
          acc.2 + ((List.range k).filterMap (fun j =>
            if |vector2Matrix removedData numUser numService i j| > EPS then
              some (Sample.mk i j (vector2Matrix removedData numUser numService i j))
            else none)).length) := by
    intro k
    induction k with
    | zero => simp [forLoop]
    | succ k ih =>
      simp only [forLoop, ih, List.range_succ, List.filterMap_append]
      by_cases h : |vector2Matrix removedData numUser numService i k| > EPS
      · simp [h, Nat.add_assoc]
      · simp [h]
  exact key numService

theorem extractSamples_eq {F : Type} [LinearOrderedField F] (removedData : Nat → F)
    (numUser numService : Nat) :
    extractSamples removedData numUser numService =
      (observedSamples removedData numUser numService,
        (observedSamples removedData numUser numService).length) := by
  unfold extractSamples observedSamples
  have key : ∀ n,
      forLoop (fun i acc => forLoop (fun j acc =>
          if |vector2Matrix removedData numUser numService i j| > EPS then
            (acc.1 ++ [Sample.mk i j (vector2Matrix removedData numUser numService i j)],
              acc.2 + 1)
          else acc) numService acc) n (([] : List (Sample F)), 0) =
        ((List.range n).flatMap (observedRow removedData numUser numService),
          ((List.range n).flatMap (observedRow removedData numUser numService)).length) := by
    intro n
    induction n with
    | zero => simp [forLoop]
    | succ n ih =>
      simp only [forLoop]
      rw [ih, extractRow_eq]
      simp [List.range_succ]
  exact key numUser

theorem mem_observedRow {F : Type} [LinearOrderedField F] (removedData : Nat → F)
    (numUser numService i : Nat) (s : Sample F) :
    s ∈ observedRow removedData numUser numService i ↔
      ∃ j, j < numService ∧ |vector2Matrix removedData numUser numService i j| > EPS ∧
        s = Sample.mk i j (vector2Matrix removedData numUser numService i j) := by
  unfold observedRow
  rw [List.mem_filterMap]
  constructor
  · rintro ⟨j, hj, h⟩
    by_cases hg : |vector2Matrix removedData numUser numService i j| > EPS
    · rw [if_pos hg] at h
      exact ⟨j, List.mem_range.mp hj, hg, (Option.some.inj h).symm⟩
    · rw [if_neg hg] at h
      exact absurd h (by simp)
  · rintro ⟨j, hj, hg, rfl⟩
    exact ⟨j, List.mem_range.mpr hj, by rw [if_pos hg]⟩

theorem mem_observedSamples {F : Type} [LinearOrderedField F] (removedData : Nat → F)
    (numUser numService : Nat) (s : Sample F) :
    s ∈ observedSamples removedData numUser numService ↔
      ∃ i j, i < numUser ∧ j < numService ∧
        |vector2Matrix removedData numUser numService i j| > EPS ∧
        s = Sample.mk i j (vector2Matrix removedData numUser numService i j) := by
  unfold observedSamples
  rw [List.mem_flatMap]
  constructor
  · rintro ⟨i, hi, h⟩
    obtain ⟨j, hj, hg, hs⟩ := (mem_observedRow removedData numUser numService i s).mp h
    exact ⟨i, j, List.mem_range.mp hi, hj, hg, hs⟩
  · rintro ⟨i, j, hi, hj, hg, hs⟩
    exact ⟨i, List.mem_range.mpr hi,
      (mem_observedRow removedData numUser numService i s).mpr ⟨j, hj, hg, hs⟩⟩

theorem observedSamples_pairwise {F : Type} [LinearOrderedField F] (removedData : Nat → F)
    (numUser numService : Nat) :
    (observedSamples removedData numUser numService).Pairwise rowMajorLt := by
  unfold observedSamples
  rw [List.pairwise_flatMap]
  constructor
  · intro i _
    unfold observedRow
    rw [List.pairwise_filterMap]
    refine (List.pairwise_lt_range numService).imp ?_
    intro j j' hjj b hb b' hb'
    by_cases hg : |vector2Matrix removedData numUser numService i j| > EPS
    · by_cases hg' : |vector2Matrix removedData numUser numService i j'| > EPS
      · rw [if_pos hg] at hb
        rw [if_pos hg'] at hb'
        cases hb
        cases hb'
        exact Or.inr ⟨rfl, hjj⟩
      · rw [if_neg hg'] at hb'
        cases hb'
    · rw [if_neg hg] at hb
      cases hb
  · refine (List.pairwise_lt_range numUser).imp ?_
    intro i i' hii x hx y hy
    obtain ⟨j, _, _, rfl⟩ := (mem_observedRow removedData numUser numService i x).mp hx
    obtain ⟨j', _, _, rfl⟩ := (mem_observedRow removedData numUser numService i' y).mp hy
    exact Or.inl hii

theorem EPS_pos {F : Type} [LinearOrderedField F] : (0 : F) < EPS := by
  unfold EPS
  norm_num

theorem scenario_samples :
    extractSamples (scenarioMem ℚ).removedData 2 2 =
      ([Sample.mk 0 0 0.5, Sample.mk 1 1 0.5], 2) := by
  norm_num [extractSamples, forLoop, vector2Matrix, scenarioMem, EPS, abs_of_pos]

/-- C5: the sample list built at the start of `AMF` holds a triple exactly when it is
`(i, j, removedMatrix[i][j])` for a position of the matrix with
`|removedMatrix[i][j]| > 1e-8`, lists the positions in strictly increasing row-major
order (so each once), has length `numSample`, and holds no zero value; for
`[[0.5, 0], [0, 0.5]]` it is `[(0,0,0.5), (1,1,0.5)]` with `numSample = 2`. -/
theorem extractSamples_spec {F : Type} [LinearOrderedField F] (removedData : Nat → F)
    (numUser numService : Nat) :
    (∀ s : Sample F, s ∈ (extractSamples removedData numUser numService).1 ↔
      ∃ i j, i < numUser ∧ j < numService ∧
        |vector2Matrix removedData numUser numService i j| > EPS ∧
        s = Sample.mk i j (vector2Matrix removedData numUser numService i j)) ∧
    (extractSamples removedData numUser numService).1.Pairwise rowMajorLt ∧
    (extractSamples removedData numUser numService).2 =
      (extractSamples removedData numUser numService).1.length ∧
    (∀ s : Sample F, s ∈ (extractSamples removedData numUser numService).1 → s.r ≠ 0) ∧
    extractSamples (scenarioMem ℚ).removedData 2 2 =
      ([Sample.mk 0 0 0.5, Sample.mk 1 1 0.5], 2) := by
  rw [extractSamples_eq]
  refine ⟨mem_observedSamples removedData numUser numService,
    observedSamples_pairwise removedData numUser numService, rfl, ?_, scenario_samples⟩
  intro s hs
  obtain ⟨i, j, _, _, hg, rfl⟩ := (mem_observedSamples removedData numUser numService s).mp hs
  intro h0
  simp only at h0
  rw [h0, abs_zero] at hg
  exact absurd hg (not_lt.mpr (le_of_lt EPS_pos))

/-! ## The loss evaluator: claims C6 and C7 -/

theorem forLoop_sum {F : Type} [LinearOrderedField F] (body : Nat → F → F) (f : Nat → F)
    (h : ∀ k a, body k a = a + f k) (n : Nat) (a : F) :
    forLoop body n a = a + ∑ k ∈ Finset.range n, f k := by
  induction n with
  | zero => simp [forLoop]
  | succ n ih =>
    simp only [forLoop]
    rw [ih, h, Finset.sum_range_succ, add_assoc]

theorem loss_eq_lossSpec {F : Type} [LinearOrderedField F] (lmda : F)
    (numUser numService dim : Nat) (m : Mem F) :
    loss lmda numUser numService dim m = lossSpec lmda numUser numService dim m := by
  unfold loss lossSpec
  simp only
  rw [forLoop_sum _ (fun j => 0.5 * lmda * square (m.q j)) (fun _ _ => rfl),
    forLoop_sum _ (fun i => 0.5 * lmda * square (m.p i)) (fun _ _ => rfl),
    forLoop_sum _ (fun k =>
      (∑ i ∈ Finset.range numUser, 0.5 * lmda * square (vector2Matrix m.Udata numUser dim i k)) +
      ∑ j ∈ Finset.range numService,
        0.5 * lmda * square (vector2Matrix m.Sdata numService dim j k))
      (fun k a => by
        rw [forLoop_sum _ (fun j => 0.5 * lmda * square (vector2Matrix m.Sdata numService dim j k))
            (fun _ _ => rfl),
          forLoop_sum _ (fun i => 0.5 * lmda * square (vector2Matrix m.Udata numUser dim i k))
            (fun _ _ => rfl), add_assoc]),
    forLoop_sum _ (fun i => ∑ j ∈ Finset.range numService,
        if |vector2Matrix m.removedData numUser numService i j| > EPS then
          0.5 * square ((vector2Matrix m.removedData numUser numService i j -
              vector2Matrix m.predData numUser numService i j) /
            vector2Matrix m.removedData numUser numService i j)
        else 0)
      (fun i a => by
        rw [forLoop_sum _ (fun j =>
          if |vector2Matrix m.removedData numUser numService i j| > EPS then
            0.5 * square ((vector2Matrix m.removedData numUser numService i j -
                vector2Matrix m.predData numUser numService i j) /
              vector2Matrix m.removedData numUser numService i j)
          else 0)
          (fun j b => by
            by_cases hg : |vector2Matrix m.removedData numUser numService i j| > EPS
            · simp only [hg, if_true]
            · simp only [hg, if_false, add_zero])])]
  rw [zero_add, Finset.sum_add_distrib,
    Finset.sum_comm (s := Finset.range dim) (t := Finset.range numUser),
    Finset.sum_comm (s := Finset.range dim) (t := Finset.range numService)]
  simp only [square, ← Finset.mul_sum, ← pow_two]
  ring

/-- C6: `loss` returns the unnormalised sum `lossSpec` (half the squared relative error
over the positions with `|observed| > 1e-8`, plus `0.5 * lmda` times the squares of all
components of `U`, `S`, `p` and `q`), and the content of the prediction buffer away from
the observed positions does not affect it. -/
theorem loss_spec {F : Type} [LinearOrderedField F] (lmda : F)
    (numUser numService dim : Nat) (m : Mem F) :
    loss lmda numUser numService dim m = lossSpec lmda numUser numService dim m ∧
    ∀ predData0 : Nat → F,
      (∀ i j, i < numUser → j < numService →
        |vector2Matrix m.removedData numUser numService i j| > EPS →
        vector2Matrix predData0 numUser numService i j =
          vector2Matrix m.predData numUser numService i j) →
      loss lmda numUser numService dim { m with predData := predData0 } =
        loss lmda numUser numService dim m := by
  refine ⟨loss_eq_lossSpec lmda numUser numService dim m, ?_⟩
  intro predData0 h
  rw [loss_eq_lossSpec, loss_eq_lossSpec]
  unfold lossSpec
  congr 1
  refine Finset.sum_congr rfl (fun i hi => Finset.sum_congr rfl (fun j hj => ?_))
  by_cases hg : |vector2Matrix m.removedData numUser numService i j| > EPS
  · simp only [hg, if_true]
    rw [h i j (Finset.mem_range.mp hi) (Finset.mem_range.mp hj) hg]
  · simp only [hg, if_false]

/-- C7, as stated, fails: with `lmda = -1` and every buffer of a 1 x 1 problem filled
with 1 the loss is negative. -/
theorem loss_negative_lmda : ¬ (0 ≤ loss (-1 : ℚ) 1 1 1 (onesMem ℚ)) := by
  norm_num [loss, forLoop, vector2Matrix, onesMem, EPS, square, abs_of_pos]

/-- C7, amended: for `lmda >= 0` the scalar returned by `loss` is non-negative, for all
`U`, `S`, `p`, `q`, observed matrix and prediction matrix. -/
theorem loss_nonneg {F : Type} [LinearOrderedField F] (lmda : F)
    (numUser numService dim : Nat) (m : Mem F) (hlmda : 0 ≤ lmda) :
    0 ≤ loss lmda numUser numService dim m := by
  rw [loss_eq_lossSpec]
  unfold lossSpec
  have hcost : (0 : F) ≤ ∑ i ∈ Finset.range numUser, ∑ j ∈ Finset.range numService,
      if |vector2Matrix m.removedData numUser numService i j| > EPS then
        0.5 * ((vector2Matrix m.removedData numUser numService i j -
            vector2Matrix m.predData numUser numService i j) /
          vector2Matrix m.removedData numUser numService i j) ^ 2
      else 0 := by
    refine Finset.sum_nonneg (fun i _ => Finset.sum_nonneg (fun j _ => ?_))
    split_ifs
    · positivity
    · exact le_refl 0
  have hreg : (0 : F) ≤
      (∑ i ∈ Finset.range numUser, ∑ k ∈ Finset.range dim,
          (vector2Matrix m.Udata numUser dim i k) ^ 2) +
        (∑ j ∈ Finset.range numService, ∑ k ∈ Finset.range dim,
          (vector2Matrix m.Sdata numService dim j k) ^ 2) +
        (∑ i ∈ Finset.range numUser, (m.p i) ^ 2) +
        (∑ j ∈ Finset.range numService, (m.q j) ^ 2) := by
    positivity
  have hhalf : (0 : F) ≤ 0.5 * lmda := mul_nonneg (by norm_num) hlmda
  exact add_nonneg hcost (mul_nonneg hhalf hreg)

theorem loss_nonneg_witness : 0 ≤ loss (0.01 : ℝ) 2 2 1 (scenarioMem ℝ) :=
  loss_nonneg (0.01 : ℝ) 2 2 1 (scenarioMem ℝ) (by norm_num)

/-! ## The optimizer loop: claims C8 to C10 -/

theorem epoch_iter {F : Type} [LinearOrderedField F] (exp toDouble : F → F)
    (shuffle : Nat → List (Sample F) → List (Sample F)) (numUser numService dim : Nat)
    (lmda eta beta : F) (numSample : Nat) (st : Locals F) :
    (epoch exp toDouble shuffle numUser numService dim lmda eta beta numSample st).iter =
      st.iter + 1 := rfl

theorem iterate_epoch_iter {F : Type} [LinearOrderedField F] (exp toDouble : F → F)
    (shuffle : Nat → List (Sample F) → List (Sample F)) (numUser numService dim : Nat)
    (lmda eta beta : F) (numSample : Nat) (d : Nat) (st : Locals F) :
    ((epoch exp toDouble shuffle numUser numService dim lmda eta beta numSample)^[d] st).iter =
      st.iter + d := by
  induction d generalizing st with
  | zero => rfl
  | succ d ih =>
    rw [Function.iterate_succ_apply, ih, epoch_iter]
    omega

/-- The loop returns the first state, in the sequence of states reached by running
epochs, at which it exits. -/
theorem amfLoop_first_exit {F : Type} [LinearOrderedField F] (exp toDouble : F → F)
    (shuffle : Nat → List (Sample F) → List (Sample F)) (numUser numService dim : Nat)
    (lmda : F) (maxIter : Int) (convergeThreshold eta beta : F) (numSample : Nat)
    (st : Locals F) :
    ∃ d : Nat,
      amfLoop exp toDouble shuffle numUser numService dim lmda maxIter convergeThreshold eta beta
          numSample st =
        (epoch exp toDouble shuffle numUser numService dim lmda eta beta numSample)^[d] st ∧
      loopExits maxIter convergeThreshold
        ((epoch exp toDouble shuffle numUser numService dim lmda eta beta numSample)^[d] st) ∧
      ∀ e, e < d → ¬ loopExits maxIter convergeThreshold
        ((epoch exp toDouble shuffle numUser numService dim lmda eta beta numSample)^[e] st) := by
  generalize hn : (maxIter - (st.iter : Int)).toNat = n
  induction n using Nat.strong_induction_on generalizing st with
  | _ n ih =>
    rw [amfLoop]
    by_cases hc : exceeds st.lossValue convergeThreshold = true ∨ st.iter < minIter
    · by_cases hb : (st.iter : Int) ≥ maxIter
      · refine ⟨0, ?_, Or.inr hb, fun e he => absurd he (Nat.not_lt_zero e)⟩
        rw [if_pos hc, if_pos hb]
        rfl
      · rw [if_pos hc, if_neg hb]
        have hlt : (maxIter - ((epoch exp toDouble shuffle numUser numService dim lmda eta beta
            numSample st).iter : Int)).toNat < n := by
          rw [epoch_iter]
          omega
        obtain ⟨d, h1, h2, h3⟩ := ih _ hlt
          (epoch exp toDouble shuffle numUser numService dim lmda eta beta numSample st) rfl
        refine ⟨d + 1, ?_, ?_, ?_⟩
        · rw [Function.iterate_succ_apply]
          exact h1
        · rw [Function.iterate_succ_apply]
          exact h2
        · intro e he
          cases e with
          | zero =>
            intro hex
            rcases hex with hex | hex
            · exact hex hc
            · exact hb hex
          | succ e =>
            rw [Function.iterate_succ_apply]
            exact h3 e (Nat.lt_of_succ_lt_succ he)
    · refine ⟨0, ?_, Or.inl hc, fun e he => absurd he (Nat.not_lt_zero e)⟩
      rw [if_neg hc]
      rfl

/-- The result of the loop of `AMF` is the state after `n` epochs, where `n`, the final
value of `iter`, is the first epoch count at which the loop exits. -/
theorem fit_first_exit {F : Type} [LinearOrderedField F] (exp toDouble : F → F)
    (shuffle : Nat → List (Sample F) → List (Sample F)) (m : Mem F)
    (numUser numService dim : Nat) (lmda : F) (maxIter : Int)
    (convergeThreshold eta beta : F) :
    fit exp toDouble shuffle m numUser numService dim lmda maxIter convergeThreshold eta beta =
      afterEpochs exp toDouble shuffle m numUser numService dim lmda eta beta
        (fit exp toDouble shuffle m numUser numService dim lmda maxIter convergeThreshold eta
            beta).iter ∧
    loopExits maxIter convergeThreshold
      (fit exp toDouble shuffle m numUser numService dim lmda maxIter convergeThreshold eta beta) ∧
    ∀ k, k < (fit exp toDouble shuffle m numUser numService dim lmda maxIter convergeThreshold
        eta beta).iter →
      ¬ loopExits maxIter convergeThreshold
        (afterEpochs exp toDouble shuffle m numUser numService dim lmda eta beta k) := by
  obtain ⟨d, h1, h2, h3⟩ := amfLoop_first_exit exp toDouble shuffle numUser numService dim lmda
    maxIter convergeThreshold eta beta (extractSamples m.removedData numUser numService).2
    (initLocals m numUser numService)
  have hd : (fit exp toDouble shuffle m numUser numService dim lmda maxIter convergeThreshold
      eta beta).iter = d := by
    unfold fit
    rw [h1, iterate_epoch_iter]
    simp [initLocals]
  rw [hd]
  unfold fit afterEpochs
  rw [h1]
  exact ⟨rfl, h2, h3⟩

theorem afterEpochs_iter {F : Type} [LinearOrderedField F] (exp toDouble : F → F)
    (shuffle : Nat → List (Sample F) → List (Sample F)) (m : Mem F)
    (numUser numService dim : Nat) (lmda eta beta : F) (n : Nat) :
    (afterEpochs exp toDouble shuffle m numUser numService dim lmda eta beta n).iter = n := by
  unfold afterEpochs
  rw [iterate_epoch_iter]
  simp [initLocals]

theorem fit_exit_facts {F : Type} [LinearOrderedField F] (exp toDouble : F → F)
    (shuffle : Nat → List (Sample F) → List (Sample F)) (m : Mem F)
    (numUser numService dim : Nat) (lmda : F) (maxIter : Int)
    (convergeThreshold eta beta : F) :
    ((exceeds (fit exp toDouble shuffle m numUser numService dim lmda maxIter convergeThreshold
          eta beta).lossValue convergeThreshold = false ∧
        30 ≤ (fit exp toDouble shuffle m numUser numService dim lmda maxIter convergeThreshold
          eta beta).iter) ∨
      ((fit exp toDouble shuffle m numUser numService dim lmda maxIter convergeThreshold
          eta beta).iter : Int) ≥ maxIter) ∧
    ∀ k, k < (fit exp toDouble shuffle m numUser numService dim lmda maxIter convergeThreshold
        eta beta).iter →
      (k : Int) < maxIter ∧
      (k < 30 ∨ exceeds
        (afterEpochs exp toDouble shuffle m numUser numService dim lmda eta beta k).lossValue
        convergeThreshold = true) := by
  obtain ⟨_, h2, h3⟩ := fit_first_exit exp toDouble shuffle m numUser numService dim lmda maxIter
    convergeThreshold eta beta
  constructor
  · rcases h2 with h | h
    · left
      rw [not_or] at h
      exact ⟨Bool.eq_false_iff.mpr h.1, not_lt.mp h.2⟩
    · right
      exact h
  · intro k hk
    have h := h3 k hk
    unfold loopExits at h
    rw [afterEpochs_iter, not_or, not_not] at h
    refine ⟨by omega, ?_⟩
    rcases h.1 with h1 | h1
    · right
      exact h1
    · left
      exact h1

theorem fit_iter_le {F : Type} [LinearOrderedField F] (exp toDouble : F → F)
    (shuffle : Nat → List (Sample F) → List (Sample F)) (m : Mem F)
    (numUser numService dim : Nat) (lmda : F) (maxIter : Int)
    (convergeThreshold eta beta : F) :
    ((fit exp toDouble shuffle m numUser numService dim lmda maxIter convergeThreshold
      eta beta).iter : Int) ≤ max maxIter 0 := by
  obtain ⟨_, h2⟩ := fit_exit_facts exp toDouble shuffle m numUser numService dim lmda maxIter
    convergeThreshold eta beta
  generalize (fit exp toDouble shuffle m numUser numService dim lmda maxIter convergeThreshold
    eta beta).iter = n at h2 ⊢
  cases n with
  | zero => exact le_max_right _ _
  | succ n =>
    have h := (h2 n (Nat.lt_succ_self n)).1
    have : ((n + 1 : Nat) : Int) ≤ maxIter := by omega
    exact le_trans this (le_max_left _ _)

theorem fit_iter_ge_of_lt_minIter {F : Type} [LinearOrderedField F] (exp toDouble : F → F)
    (shuffle : Nat → List (Sample F) → List (Sample F)) (m : Mem F)
    (numUser numService dim : Nat) (lmda : F) (maxIter : Int)
    (convergeThreshold eta beta : F)
    (h : (fit exp toDouble shuffle m numUser numService dim lmda maxIter convergeThreshold
      eta beta).iter < 30) :
    ((fit exp toDouble shuffle m numUser numService dim lmda maxIter convergeThreshold
      eta beta).iter : Int) ≥ maxIter := by
  obtain ⟨h1, _⟩ := fit_exit_facts exp toDouble shuffle m numUser numService dim lmda maxIter
    convergeThreshold eta beta
  rcases h1 with h1 | h1
  · omega
  · exact h1

theorem fit_iter_eq_of_lt {F : Type} [LinearOrderedField F] (exp toDouble : F → F)
    (shuffle : Nat → List (Sample F) → List (Sample F)) (m : Mem F)
    (numUser numService dim : Nat) (lmda : F) (maxIter : Int)
    (convergeThreshold eta beta : F) (hlt : maxIter < 30) :
    ((fit exp toDouble shuffle m numUser numService dim lmda maxIter convergeThreshold
      eta beta).iter : Int) = max maxIter 0 := by
  have hle := fit_iter_le exp toDouble shuffle m numUser numService dim lmda maxIter
    convergeThreshold eta beta
  have hge := fit_iter_ge_of_lt_minIter exp toDouble shuffle m numUser numService dim lmda maxIter
    convergeThreshold eta beta
  generalize (fit exp toDouble shuffle m numUser numService dim lmda maxIter convergeThreshold
    eta beta).iter = n at hle hge ⊢
  have h30 : n < 30 := by
    rcases le_max_iff.mp hle with h | h <;> omega
  have h1 := hge h30
  exact le_antisymm hle (max_le h1 (by omega))

theorem scenario_samples_real :
    extractSamples (scenarioMem ℝ).removedData 2 2 =
      ([Sample.mk 0 0 0.5, Sample.mk 1 1 0.5], 2) := by
  norm_num [extractSamples, forLoop, vector2Matrix, scenarioMem, EPS, abs_of_pos]

/-- In the scenario the zero factors predict every observed entry exactly: one epoch
leaves them as they are, and the normalised loss after it is 0. -/
theorem scenario_epoch (st : Locals ℝ)
    (h1 : st.mem.removedData = (scenarioMem ℝ).removedData)
    (h2 : st.mem.Udata = fun _ => 0) (h3 : st.mem.Sdata = fun _ => 0)
    (h4 : st.mem.p = fun _ => 0) (h5 : st.mem.q = fun _ => 0)
    (h6 : st.samples = [Sample.mk 0 0 0.5, Sample.mk 1 1 0.5]) :
    (epoch Real.exp roundDouble idShuffle 2 2 1 0.01 0.05 0.5 2 st).mem.removedData =
        (scenarioMem ℝ).removedData ∧
    ((epoch Real.exp roundDouble idShuffle 2 2 1 0.01 0.05 0.5 2 st).mem.Udata = fun _ => 0) ∧
    ((epoch Real.exp roundDouble idShuffle 2 2 1 0.01 0.05 0.5 2 st).mem.Sdata = fun _ => 0) ∧
    ((epoch Real.exp roundDouble idShuffle 2 2 1 0.01 0.05 0.5 2 st).mem.p = fun _ => 0) ∧
    ((epoch Real.exp roundDouble idShuffle 2 2 1 0.01 0.05 0.5 2 st).mem.q = fun _ => 0) ∧
    (epoch Real.exp roundDouble idShuffle 2 2 1 0.01 0.05 0.5 2 st).samples =
        [Sample.mk 0 0 0.5, Sample.mk 1 1 0.5] ∧
    (epoch Real.exp roundDouble idShuffle 2 2 1 0.01 0.05 0.5 2 st).lossValue = ExtDouble.num 0 :=
        by
  obtain ⟨⟨rd, U, S, p, q, pd⟩, samples, eu, es, lv, it⟩ := st
  simp only at h1 h2 h3 h4 h5 h6
  subst h1 h2 h3 h4 h5 h6
  simp only [epoch, epochBody, idShuffle, List.foldl]
  simp [sgdStep, forLoop, gradStep, vector2Matrix, scenarioMem, dotProduct, sigmoid_zero,
    grad_sigmoid, getPredMatrix_eq, loss_eq_lossSpec, lossSpec, cellValue, EPS,
    Finset.sum_range_succ, divCount]
  norm_num [abs_of_pos, sigmoid_zero]

theorem scenario_loss_zero (k : Nat) (hk : 1 ≤ k) :
    (afterEpochs Real.exp roundDouble idShuffle (scenarioMem ℝ) 2 2 1 0.01 0.05 0.5 k).lossValue =
      ExtDouble.num 0 := by
  have inv : ∀ n,
      (afterEpochs Real.exp roundDouble idShuffle (scenarioMem ℝ) 2 2 1 0.01 0.05 0.5
          n).mem.removedData =
          (scenarioMem ℝ).removedData ∧
      ((afterEpochs Real.exp roundDouble idShuffle (scenarioMem ℝ) 2 2 1 0.01 0.05 0.5 n).mem.Udata
          =
          fun _ => 0) ∧
      ((afterEpochs Real.exp roundDouble idShuffle (scenarioMem ℝ) 2 2 1 0.01 0.05 0.5 n).mem.Sdata
          =
          fun _ => 0) ∧
      ((afterEpochs Real.exp roundDouble idShuffle (scenarioMem ℝ) 2 2 1 0.01 0.05 0.5 n).mem.p =
          fun _ => 0) ∧
      ((afterEpochs Real.exp roundDouble idShuffle (scenarioMem ℝ) 2 2 1 0.01 0.05 0.5 n).mem.q =
          fun _ => 0) ∧
      (afterEpochs Real.exp roundDouble idShuffle (scenarioMem ℝ) 2 2 1 0.01 0.05 0.5 n).samples =
          [Sample.mk 0 0 0.5, Sample.mk 1 1 0.5] ∧
      (1 ≤ n →
        (afterEpochs Real.exp roundDouble idShuffle (scenarioMem ℝ) 2 2 1 0.01 0.05 0.5
            n).lossValue =
          ExtDouble.num 0) := by
    intro n
    induction n with
    | zero =>
      refine ⟨rfl, rfl, rfl, rfl, rfl, ?_, fun h => absurd h (by decide)⟩
      simp only [afterEpochs, Function.iterate_zero, id, initLocals, scenario_samples_real]
    | succ n ih =>
      obtain ⟨h1, h2, h3, h4, h5, h6, _⟩ := ih
      have hstep : afterEpochs Real.exp roundDouble idShuffle (scenarioMem ℝ) 2 2 1 0.01 0.05 0.5
          (n + 1) =
          epoch Real.exp roundDouble idShuffle 2 2 1 0.01 0.05 0.5 2
            (afterEpochs Real.exp roundDouble idShuffle (scenarioMem ℝ) 2 2 1 0.01 0.05 0.5 n) := by
        unfold afterEpochs
        rw [Function.iterate_succ_apply', scenario_samples_real]
      rw [hstep]
      obtain ⟨g1, g2, g3, g4, g5, g6, g7⟩ := scenario_epoch _ h1 h2 h3 h4 h5 h6
      exact ⟨g1, g2, g3, g4, g5, g6, fun _ => g7⟩
  exact (inv k).2.2.2.2.2.2 hk

/-- C8, as stated, fails: `maxIter = -1` is below 30, yet the loop executes no epoch,
not `-1` of them. -/
theorem epochs_ne_negative_maxIter :
    (fit Real.exp roundDouble idShuffle (scenarioMem ℝ) 2 2 1 0.01 (-1) 1e-4 0.05 0.5).iter = 0 ∧
    ¬ ((-1 : Int) < 30 →
      ((fit Real.exp roundDouble idShuffle (scenarioMem ℝ) 2 2 1 0.01 (-1) 1e-4 0.05 0.5).iter :
          Int) =
        -1) := by
  have h := fit_iter_eq_of_lt Real.exp roundDouble idShuffle (scenarioMem ℝ) 2 2 1 0.01 (-1) 1e-4
    0.05 0.5 (by decide)
  constructor
  · have h0 : max (-1 : Int) 0 = 0 := by decide
    rw [h0] at h
    exact_mod_cast h
  · intro hc
    have := hc (by decide)
    omega

/-- C8, amended: for `maxIter < 30` the loop executes exactly `max(maxIter, 0)` epochs,
that is exactly `maxIter` of them when `0 <= maxIter < 30`, whatever the data, the
threshold, the losses and the shuffles; the state on exit is the state after that many
epochs. -/
theorem epochs_of_maxIter_lt {F : Type} [LinearOrderedField F] (exp toDouble : F → F)
    (shuffle : Nat → List (Sample F) → List (Sample F)) (m : Mem F)
    (numUser numService dim : Nat) (lmda : F) (maxIter : Int)
    (convergeThreshold eta beta : F) (hlt : maxIter < 30) :
    ((fit exp toDouble shuffle m numUser numService dim lmda maxIter convergeThreshold
      eta beta).iter : Int) = max maxIter 0 ∧
    fit exp toDouble shuffle m numUser numService dim lmda maxIter convergeThreshold eta beta =
      afterEpochs exp toDouble shuffle m numUser numService dim lmda eta beta
        (fit exp toDouble shuffle m numUser numService dim lmda maxIter convergeThreshold
          eta beta).iter :=
  ⟨fit_iter_eq_of_lt exp toDouble shuffle m numUser numService dim lmda maxIter convergeThreshold
      eta beta hlt,
    (fit_first_exit exp toDouble shuffle m numUser numService dim lmda maxIter convergeThreshold
      eta beta).1⟩

theorem epochs_of_maxIter_lt_witness :
    ((fit Real.exp roundDouble idShuffle (scenarioMem ℝ) 2 2 1 0.01 5 1e-4 0.05 0.5).iter : Int) =
      max 5 0 :=
  (epochs_of_maxIter_lt Real.exp roundDouble idShuffle (scenarioMem ℝ) 2 2 1 0.01 5 1e-4 0.05 0.5
    (by decide)).1

/-- C9, as stated, fails: in the scenario started from zero factors the normalised loss
is 0, below the threshold `1e-4`, after every epoch, yet with `maxIter = 5` the loop
stops after 5 epochs, fewer than 30. -/
theorem scenario_stops_before_floor :
    (∀ k, 1 ≤ k →
      (afterEpochs Real.exp roundDouble idShuffle (scenarioMem ℝ) 2 2 1 0.01 0.05 0.5 k).lossValue =
        ExtDouble.num 0) ∧
    (0 : ℝ) ≤ 1e-4 ∧
    (fit Real.exp roundDouble idShuffle (scenarioMem ℝ) 2 2 1 0.01 5 1e-4 0.05 0.5).iter = 5 ∧
    ¬ (30 ≤ (fit Real.exp roundDouble idShuffle (scenarioMem ℝ) 2 2 1 0.01 5 1e-4 0.05 0.5).iter)
        := by
  have h := fit_iter_eq_of_lt Real.exp roundDouble idShuffle (scenarioMem ℝ) 2 2 1 0.01 5 1e-4
    0.05 0.5 (by decide)
  have h5 : max (5 : Int) 0 = 5 := by decide
  rw [h5] at h
  have hn : (fit Real.exp roundDouble idShuffle (scenarioMem ℝ) 2 2 1 0.01 5 1e-4 0.05 0.5).iter =
      5 := by
    exact_mod_cast h
  exact ⟨scenario_loss_zero, by norm_num, hn, by omega⟩

/-- C9, amended: for `maxIter >= 30` the loop executes at least 30 epochs, and exactly 30
when the test `lossValue > convergeThreshold` is false after epoch 30, as it is when the
normalised loss is at or below the threshold (so also when the threshold is so high that
the loss is at or below it after every epoch); for every `maxIter`, a run of fewer than
30 epochs ends with `iter >= maxIter`, on the `maxIter` cutoff and never on the
threshold. -/
theorem epochs_floor {F : Type} [LinearOrderedField F] (exp toDouble : F → F)
    (shuffle : Nat → List (Sample F) → List (Sample F)) (m : Mem F)
    (numUser numService dim : Nat) (lmda : F) (maxIter : Int)
    (convergeThreshold eta beta : F) :
    (30 ≤ maxIter →
      30 ≤ (fit exp toDouble shuffle m numUser numService dim lmda maxIter convergeThreshold
        eta beta).iter ∧
      (exceeds (afterEpochs exp toDouble shuffle m numUser numService dim lmda eta beta
          30).lossValue
          convergeThreshold = false →
        (fit exp toDouble shuffle m numUser numService dim lmda maxIter convergeThreshold
          eta beta).iter = 30)) ∧
    ((fit exp toDouble shuffle m numUser numService dim lmda maxIter convergeThreshold
        eta beta).iter < 30 →
      ((fit exp toDouble shuffle m numUser numService dim lmda maxIter convergeThreshold
        eta beta).iter : Int) ≥ maxIter) := by
  refine ⟨fun h30 => ?_, fit_iter_ge_of_lt_minIter exp toDouble shuffle m numUser numService dim
    lmda maxIter convergeThreshold eta beta⟩
  have hge := fit_iter_ge_of_lt_minIter exp toDouble shuffle m numUser numService dim lmda maxIter
    convergeThreshold eta beta
  obtain ⟨_, hk⟩ := fit_exit_facts exp toDouble shuffle m numUser numService dim lmda maxIter
    convergeThreshold eta beta
  generalize (fit exp toDouble shuffle m numUser numService dim lmda maxIter convergeThreshold
    eta beta).iter = n at hge hk ⊢
  have hn : 30 ≤ n := by
    by_contra hlt
    have := hge (by omega)
    omega
  refine ⟨hn, fun hloss => ?_⟩
  by_contra hne
  have h30n : 30 < n := by omega
  rcases (hk 30 h30n).2 with h | h
  · omega
  · rw [hloss] at h
    exact absurd h (by decide)

theorem epochs_floor_witness :
    30 ≤ (fit Real.exp roundDouble idShuffle (scenarioMem ℝ) 2 2 1 0.01 100 1e-4 0.05 0.5).iter ∧
    (fit Real.exp roundDouble idShuffle (scenarioMem ℝ) 2 2 1 0.01 100 1e-4 0.05 0.5).iter = 30 :=
        by
  have h := (epochs_floor Real.exp roundDouble idShuffle (scenarioMem ℝ) 2 2 1 0.01 100 1e-4
    0.05 0.5).1 (by decide)
  refine ⟨h.1, h.2 ?_⟩
  rw [scenario_loss_zero 30 (by decide)]
  simp only [exceeds, decide_eq_false_iff_not, not_lt]
  norm_num

/-! ## The numeric primitives: claim C12 -/

/-- C12: for every real `x`, `grad_sigmoid(x) = 1 / (2 + e^(-x) + e^x)` equals
`sigmoid(x) * (1 - sigmoid(x))`, where `sigmoid(x) = 1 / (1 + e^(-x))` is the real
quotient (the conversion `toDouble` is the identity). -/
theorem grad_sigmoid_eq (x : ℝ) :
    grad_sigmoid Real.exp x = 1 / (2 + Real.exp (-x) + Real.exp x) ∧
    sigmoid Real.exp id x = 1 / (1 + Real.exp (-x)) ∧
    grad_sigmoid Real.exp x = sigmoid Real.exp id x * (1 - sigmoid Real.exp id x) := by
  refine ⟨rfl, rfl, ?_⟩
  unfold grad_sigmoid sigmoid
  simp only [id]
  have ha : 0 < Real.exp (-x) := Real.exp_pos _
  have hb : Real.exp x = (Real.exp (-x))⁻¹ := by
    rw [Real.exp_neg, inv_inv]
  rw [hb]
  have h1 : (1 : ℝ) + Real.exp (-x) ≠ 0 := by positivity
  have h2 : (2 : ℝ) + Real.exp (-x) + (Real.exp (-x))⁻¹ ≠ 0 := by positivity
  field_simp
  ring

/-! ## The per-sample update: claims C15 to C17 and C19 -/

theorem dotProduct_eq_sum {F : Type} [LinearOrderedField F] (vec1 vec2 : Nat → F)
    (len : Nat) : dotProduct vec1 vec2 len = ∑ k ∈ Finset.range len, vec1 k * vec2 k := by
  unfold dotProduct
  rw [forLoop_sum _ (fun k => vec1 k * vec2 k) (fun _ _ => rfl), zero_add]

/-- Closed form of the loop over `k` in the per-sample update: entry `k < n` of row `i`
of `U` and of row `j` of `S` is updated from the values both had before the loop. -/
theorem gradLoop_eq {F : Type} [LinearOrderedField F] (numUser numService dim : Nat)
    (lmda eta : F) (i j : Nat) (wi wj pValue rValue g : F) (n : Nat) (m : Mem F) :
    forLoop (gradStep numUser numService dim lmda eta i j wi wj pValue rValue g) n m =
      { m with
        Udata := fun x =>
          if i * dim ≤ x ∧ x < i * dim + n then
            m.Udata x - eta * (wi * (pValue - rValue) * g * m.Sdata (j * dim + (x - i * dim)) +
              lmda * m.Udata x)
          else m.Udata x
        Sdata := fun y =>
          if j * dim ≤ y ∧ y < j * dim + n then
            m.Sdata y - eta * (wj * (pValue - rValue) * g * m.Udata (i * dim + (y - j * dim)) +
              lmda * m.Sdata y)
          else m.Sdata y } := by
  induction n with
  | zero =>
    simp only [forLoop]
    have hU : (fun x => if i * dim ≤ x ∧ x < i * dim + 0 then
        m.Udata x - eta * (wi * (pValue - rValue) * g * m.Sdata (j * dim + (x - i * dim)) +
          lmda * m.Udata x) else m.Udata x) = m.Udata := by
      funext x
      rw [if_neg (by omega)]
    have hS : (fun y => if j * dim ≤ y ∧ y < j * dim + 0 then
        m.Sdata y - eta * (wj * (pValue - rValue) * g * m.Udata (i * dim + (y - j * dim)) +
          lmda * m.Sdata y) else m.Sdata y) = m.Sdata := by
      funext y
      rw [if_neg (by omega)]
    rw [hU, hS]
  | succ n ih =>
    simp only [forLoop]
    rw [ih]
    unfold gradStep
    simp only [vector2Matrix]
    have hUn : ¬ (i * dim ≤ i * dim + n ∧ i * dim + n < i * dim + n) := by omega
    have hSn : ¬ (j * dim ≤ j * dim + n ∧ j * dim + n < j * dim + n) := by omega
    rw [if_neg hUn, if_neg hSn]
    congr 1
    · funext x
      by_cases hx : x = i * dim + n
      · subst hx
        rw [Function.update_same, if_pos (by omega)]
        have : i * dim + n - i * dim = n := by omega
        rw [this]
      · rw [Function.update_noteq hx]
        by_cases h1 : i * dim ≤ x ∧ x < i * dim + n
        · rw [if_pos h1, if_pos (by omega)]
        · rw [if_neg h1, if_neg (by omega)]
    · funext y
      by_cases hy : y = j * dim + n
      · subst hy
        rw [Function.update_same, if_pos (by omega)]
        have : j * dim + n - j * dim = n := by omega
        rw [this]
      · rw [Function.update_noteq hy]
        by_cases h1 : j * dim ≤ y ∧ y < j * dim + n
        · rw [if_pos h1, if_pos (by omega)]
        · rw [if_neg h1, if_neg (by omega)]

/-- Closed form of the per-sample update in terms of the state before it. -/
theorem sgdStep_eq {F : Type} [LinearOrderedField F] (exp toDouble : F → F)
    (numUser numService dim : Nat) (lmda eta beta : F) (st : Locals F) (sp : Sample F) :
    sgdStep exp toDouble numUser numService dim lmda eta beta st sp =
      { st with
        mem :=
          { st.mem with
            Udata := fun x =>
              if sp.i * dim ≤ x ∧ x < sp.i * dim + dim then
                st.mem.Udata x - eta * (wiAt st sp.i sp.j *
                  (predAt exp toDouble numUser numService dim st.mem sp.i sp.j - sp.r) *
                  grad_sigmoid exp (qosAt numUser numService dim st.mem sp.i sp.j) *
                  st.mem.Sdata (sp.j * dim + (x - sp.i * dim)) + lmda * st.mem.Udata x)
              else st.mem.Udata x
            Sdata := fun y =>
              if sp.j * dim ≤ y ∧ y < sp.j * dim + dim then
                st.mem.Sdata y - eta * (wjAt st sp.i sp.j *
                  (predAt exp toDouble numUser numService dim st.mem sp.i sp.j - sp.r) *
                  grad_sigmoid exp (qosAt numUser numService dim st.mem sp.i sp.j) *
                  st.mem.Udata (sp.i * dim + (y - sp.j * dim)) + lmda * st.mem.Sdata y)
              else st.mem.Sdata y
            p := Function.update st.mem.p sp.i
              (st.mem.p sp.i - eta * (wiAt st sp.i sp.j *
                (predAt exp toDouble numUser numService dim st.mem sp.i sp.j - sp.r) *
                grad_sigmoid exp (qosAt numUser numService dim st.mem sp.i sp.j) +
                lmda * st.mem.p sp.i))
            q := Function.update st.mem.q sp.j
              (st.mem.q sp.j - eta * (wiAt st sp.i sp.j *
                (predAt exp toDouble numUser numService dim st.mem sp.i sp.j - sp.r) *
                grad_sigmoid exp (qosAt numUser numService dim st.mem sp.i sp.j) +
                lmda * st.mem.q sp.j)) }
        eu := Function.update st.eu sp.i
          (beta * wiAt st sp.i sp.j * eijAt exp toDouble numUser numService dim st.mem sp +
            (1 - beta * wiAt st sp.i sp.j) * st.eu sp.i)
        es := Function.update st.es sp.j
          (beta * wjAt st sp.i sp.j * eijAt exp toDouble numUser numService dim st.mem sp +
            (1 - beta * wjAt st sp.i sp.j) * st.es sp.j) } := by
  unfold sgdStep
  simp only [gradLoop_eq, dotProduct_eq_sum]
  rfl

/-- C15: for a sample `(i, j, r)` with pre-step weights `a = eu[i]` and `b = es[j]`, the
per-sample update computes `pred = sigmoid(U[i]·S[j] + p[i] + q[j])`,
`eij = |pred - r| / r`, `wi = a / (a + b)`, `wj = b / (a + b)`, and sets
`eu[i] = beta*wi*eij + (1 - beta*wi)*a` and `es[j] = beta*wj*eij + (1 - beta*wj)*b`;
`wi` and `wj` both come from the pre-step `a` and `b`, and `wi + wj = 1` when
`a + b` is nonzero. -/
theorem sgdStep_confidence {F : Type} [LinearOrderedField F] (exp toDouble : F → F)
    (numUser numService dim : Nat) (lmda eta beta : F) (st : Locals F) (sp : Sample F) :
    predAt exp toDouble numUser numService dim st.mem sp.i sp.j =
      sigmoid exp toDouble ((∑ k ∈ Finset.range dim,
        vector2Matrix st.mem.Udata numUser dim sp.i k *
          vector2Matrix st.mem.Sdata numService dim sp.j k) + st.mem.p sp.i + st.mem.q sp.j) ∧
    eijAt exp toDouble numUser numService dim st.mem sp =
      |predAt exp toDouble numUser numService dim st.mem sp.i sp.j - sp.r| / sp.r ∧
    wiAt st sp.i sp.j = st.eu sp.i / (st.eu sp.i + st.es sp.j) ∧
    wjAt st sp.i sp.j = st.es sp.j / (st.eu sp.i + st.es sp.j) ∧
    (sgdStep exp toDouble numUser numService dim lmda eta beta st sp).eu sp.i =
      beta * wiAt st sp.i sp.j * eijAt exp toDouble numUser numService dim st.mem sp +
        (1 - beta * wiAt st sp.i sp.j) * st.eu sp.i ∧
    (sgdStep exp toDouble numUser numService dim lmda eta beta st sp).es sp.j =
      beta * wjAt st sp.i sp.j * eijAt exp toDouble numUser numService dim st.mem sp +
        (1 - beta * wjAt st sp.i sp.j) * st.es sp.j ∧
    (st.eu sp.i + st.es sp.j ≠ 0 → wiAt st sp.i sp.j + wjAt st sp.i sp.j = 1) := by
  refine ⟨rfl, rfl, rfl, rfl, ?_, ?_, ?_⟩
  · rw [sgdStep_eq]
    exact Function.update_same _ _ _
  · rw [sgdStep_eq]
    exact Function.update_same _ _ _
  · intro h
    unfold wiAt wjAt
    rw [← add_div, div_self h]

/-- C16: for a sample `(i, j, r)` the per-sample update sets `p[i]` to
`p[i] - eta*(wi*(pred - r)*g + lmda*p[i])` and `q[j]` to
`q[j] - eta*(wi*(pred - r)*g + lmda*q[j])`, where `pred`, `g = grad_sigmoid(qos)` and
the user weight `wi` are those of the pre-step state; the gradient of the service bias
carries `wi`, not `wj`. -/
theorem sgdStep_bias {F : Type} [LinearOrderedField F] (exp toDouble : F → F)
    (numUser numService dim : Nat) (lmda eta beta : F) (st : Locals F) (sp : Sample F) :
    (sgdStep exp toDouble numUser numService dim lmda eta beta st sp).mem.p sp.i =
      st.mem.p sp.i - eta * (wiAt st sp.i sp.j *
        (predAt exp toDouble numUser numService dim st.mem sp.i sp.j - sp.r) *
        grad_sigmoid exp (qosAt numUser numService dim st.mem sp.i sp.j) +
        lmda * st.mem.p sp.i) ∧
    (sgdStep exp toDouble numUser numService dim lmda eta beta st sp).mem.q sp.j =
      st.mem.q sp.j - eta * (wiAt st sp.i sp.j *
        (predAt exp toDouble numUser numService dim st.mem sp.i sp.j - sp.r) *
        grad_sigmoid exp (qosAt numUser numService dim st.mem sp.i sp.j) +
        lmda * st.mem.q sp.j) := by
  rw [sgdStep_eq]
  exact ⟨Function.update_same _ _ _, Function.update_same _ _ _⟩

/-- C17: for a sample `(i, j, r)` and every `k < dim` the per-sample update sets
`U[i][k]` to `U[i][k] - eta*(wi*(pred - r)*g*S[j][k] + lmda*U[i][k])` and `S[j][k]` to
`S[j][k] - eta*(wj*(pred - r)*g*U[i][k] + lmda*S[j][k])`, where every quantity on the
right is taken from the state before the update. -/
theorem sgdStep_factors {F : Type} [LinearOrderedField F] (exp toDouble : F → F)
    (numUser numService dim : Nat) (lmda eta beta : F) (st : Locals F) (sp : Sample F)
    (k : Nat) (hk : k < dim) :
    vector2Matrix (sgdStep exp toDouble numUser numService dim lmda eta beta st sp).mem.Udata
        numUser dim sp.i k =
      vector2Matrix st.mem.Udata numUser dim sp.i k - eta * (wiAt st sp.i sp.j *
        (predAt exp toDouble numUser numService dim st.mem sp.i sp.j - sp.r) *
        grad_sigmoid exp (qosAt numUser numService dim st.mem sp.i sp.j) *
        vector2Matrix st.mem.Sdata numService dim sp.j k +
        lmda * vector2Matrix st.mem.Udata numUser dim sp.i k) ∧
    vector2Matrix (sgdStep exp toDouble numUser numService dim lmda eta beta st sp).mem.Sdata
        numService dim sp.j k =
      vector2Matrix st.mem.Sdata numService dim sp.j k - eta * (wjAt st sp.i sp.j *
        (predAt exp toDouble numUser numService dim st.mem sp.i sp.j - sp.r) *
        grad_sigmoid exp (qosAt numUser numService dim st.mem sp.i sp.j) *
        vector2Matrix st.mem.Udata numUser dim sp.i k +
        lmda * vector2Matrix st.mem.Sdata numService dim sp.j k) := by
  rw [sgdStep_eq]
  simp only [vector2Matrix]
  have h1 : sp.i * dim ≤ sp.i * dim + k ∧ sp.i * dim + k < sp.i * dim + dim := by omega
  have h2 : sp.j * dim ≤ sp.j * dim + k ∧ sp.j * dim + k < sp.j * dim + dim := by omega
  have h3 : sp.i * dim + k - sp.i * dim = k := by omega
  have h4 : sp.j * dim + k - sp.j * dim = k := by omega
  rw [if_pos h1, if_pos h2, h3, h4]
  exact ⟨rfl, rfl⟩

theorem sgdStep_factors_witness :
    vector2Matrix (sgdStep Real.exp roundDouble 2 2 1 0.01 0.05 0.5 (initLocals (scenarioMem ℝ) 2 2)
        (Sample.mk 0 0 0.5)).mem.Udata 2 1 0 0 =
      vector2Matrix (initLocals (scenarioMem ℝ) 2 2).mem.Udata 2 1 0 0 -
        0.05 * (wiAt (initLocals (scenarioMem ℝ) 2 2) 0 0 *
          (predAt Real.exp roundDouble 2 2 1 (initLocals (scenarioMem ℝ) 2 2).mem 0 0 - 0.5) *
          grad_sigmoid Real.exp (qosAt 2 2 1 (initLocals (scenarioMem ℝ) 2 2).mem 0 0) *
          vector2Matrix (initLocals (scenarioMem ℝ) 2 2).mem.Sdata 2 1 0 0 +
          0.01 * vector2Matrix (initLocals (scenarioMem ℝ) 2 2).mem.Udata 2 1 0 0) :=
  (sgdStep_factors Real.exp roundDouble 2 2 1 0.01 0.05 0.5 (initLocals (scenarioMem ℝ) 2 2)
    (Sample.mk 0 0 0.5) 0 (by decide)).1

theorem row_index_disjoint {dim i i0 k : Nat} (hne : i0 ≠ i) (hk : k < dim) :
    ¬ (i * dim ≤ i0 * dim + k ∧ i0 * dim + k < i * dim + dim) := by
  rcases Nat.lt_or_gt_of_ne hne with h | h
  · have h1 : (i0 + 1) * dim ≤ i * dim := Nat.mul_le_mul_right _ h
    have h2 : (i0 + 1) * dim = i0 * dim + dim := Nat.succ_mul _ _
    omega
  · have h1 : (i + 1) * dim ≤ i0 * dim := Nat.mul_le_mul_right _ h
    have h2 : (i + 1) * dim = i * dim + dim := Nat.succ_mul _ _
    omega

/-- What the per-sample update for the sample `sp` leaves as it was. -/
theorem sgdStep_frame {F : Type} [LinearOrderedField F] (exp toDouble : F → F)
    (numUser numService dim : Nat) (lmda eta beta : F) (st : Locals F) (sp : Sample F) :
    (∀ i0 k, i0 ≠ sp.i → k < dim →
      vector2Matrix (sgdStep exp toDouble numUser numService dim lmda eta beta st sp).mem.Udata
        numUser dim i0 k = vector2Matrix st.mem.Udata numUser dim i0 k) ∧
    (∀ j0 k, j0 ≠ sp.j → k < dim →
      vector2Matrix (sgdStep exp toDouble numUser numService dim lmda eta beta st sp).mem.Sdata
        numService dim j0 k = vector2Matrix st.mem.Sdata numService dim j0 k) ∧
    (∀ i0, i0 ≠ sp.i →
      (sgdStep exp toDouble numUser numService dim lmda eta beta st sp).mem.p i0 = st.mem.p i0) ∧
    (∀ j0, j0 ≠ sp.j →
      (sgdStep exp toDouble numUser numService dim lmda eta beta st sp).mem.q j0 = st.mem.q j0) ∧
    (∀ i0, i0 ≠ sp.i →
      (sgdStep exp toDouble numUser numService dim lmda eta beta st sp).eu i0 = st.eu i0) ∧
    (∀ j0, j0 ≠ sp.j →
      (sgdStep exp toDouble numUser numService dim lmda eta beta st sp).es j0 = st.es j0) ∧
    (sgdStep exp toDouble numUser numService dim lmda eta beta st sp).mem.removedData =
      st.mem.removedData ∧
    (sgdStep exp toDouble numUser numService dim lmda eta beta st sp).mem.predData =
      st.mem.predData ∧
    (sgdStep exp toDouble numUser numService dim lmda eta beta st sp).samples = st.samples ∧
    (sgdStep exp toDouble numUser numService dim lmda eta beta st sp).lossValue = st.lossValue ∧
    (sgdStep exp toDouble numUser numService dim lmda eta beta st sp).iter = st.iter := by
  rw [sgdStep_eq]
  refine ⟨?_, ?_, ?_, ?_, ?_, ?_, rfl, rfl, rfl, rfl, rfl⟩
  · intro i0 k hne hk
    simp only [vector2Matrix]
    rw [if_neg (row_index_disjoint hne hk)]
  · intro j0 k hne hk
    simp only [vector2Matrix]
    rw [if_neg (row_index_disjoint hne hk)]
  · intro i0 hne
    exact Function.update_noteq hne _ _
  · intro j0 hne
    exact Function.update_noteq hne _ _
  · intro i0 hne
    exact Function.update_noteq hne _ _
  · intro j0 hne
    exact Function.update_noteq hne _ _

/-- A pass over a list of samples keeps the fields that no per-sample update writes. -/
theorem foldl_sgdStep_const {F : Type} [LinearOrderedField F] (exp toDouble : F → F)
    (numUser numService dim : Nat) (lmda eta beta : F) (l : List (Sample F))
    (st : Locals F) :
    (l.foldl (sgdStep exp toDouble numUser numService dim lmda eta beta) st).mem.removedData =
      st.mem.removedData ∧
    (l.foldl (sgdStep exp toDouble numUser numService dim lmda eta beta) st).mem.predData =
      st.mem.predData ∧
    (l.foldl (sgdStep exp toDouble numUser numService dim lmda eta beta) st).samples = st.samples ∧
    (l.foldl (sgdStep exp toDouble numUser numService dim lmda eta beta) st).lossValue =
      st.lossValue ∧
    (l.foldl (sgdStep exp toDouble numUser numService dim lmda eta beta) st).iter = st.iter := by
  induction l generalizing st with
  | nil => exact ⟨rfl, rfl, rfl, rfl, rfl⟩
  | cons sp l ih =>
    simp only [List.foldl]
    obtain ⟨h1, h2, h3, h4, h5⟩ := ih (sgdStep exp toDouble numUser numService dim lmda eta beta st
        sp)
    obtain ⟨_, _, _, _, _, _, g1, g2, g3, g4, g5⟩ :=
      sgdStep_frame exp toDouble numUser numService dim lmda eta beta st sp
    exact ⟨h1.trans g1, h2.trans g2, h3.trans g3, h4.trans g4, h5.trans g5⟩

/-- A pass over samples none of which belongs to user `i0` leaves row `i0` of `U`,
`p[i0]` and `eu[i0]` as they were. -/
theorem foldl_sgdStep_user {F : Type} [LinearOrderedField F] (exp toDouble : F → F)
    (numUser numService dim : Nat) (lmda eta beta : F) (i0 : Nat) (l : List (Sample F))
    (hl : ∀ s ∈ l, s.i ≠ i0) (st : Locals F) :
    (∀ k, k < dim →
      vector2Matrix (l.foldl (sgdStep exp toDouble numUser numService dim lmda eta beta)
          st).mem.Udata
        numUser dim i0 k = vector2Matrix st.mem.Udata numUser dim i0 k) ∧
    (l.foldl (sgdStep exp toDouble numUser numService dim lmda eta beta) st).mem.p i0 = st.mem.p i0
        ∧
    (l.foldl (sgdStep exp toDouble numUser numService dim lmda eta beta) st).eu i0 = st.eu i0 := by
  induction l generalizing st with
  | nil => exact ⟨fun _ _ => rfl, rfl, rfl⟩
  | cons sp l ih =>
    simp only [List.foldl]
    have hsp : i0 ≠ sp.i := fun h => hl sp (List.mem_cons_self _ _) h.symm
    obtain ⟨h1, h2, h3⟩ := ih (fun s hs => hl s (List.mem_cons_of_mem _ hs))
      (sgdStep exp toDouble numUser numService dim lmda eta beta st sp)
    obtain ⟨g1, _, g3, _, g5, _⟩ :=
      sgdStep_frame exp toDouble numUser numService dim lmda eta beta st sp
    exact ⟨fun k hk => (h1 k hk).trans (g1 i0 k hsp hk), h2.trans (g3 i0 hsp),
      h3.trans (g5 i0 hsp)⟩

/-- A pass over samples none of which belongs to service `j0` leaves row `j0` of `S`,
`q[j0]` and `es[j0]` as they were. -/
theorem foldl_sgdStep_service {F : Type} [LinearOrderedField F] (exp toDouble : F → F)
    (numUser numService dim : Nat) (lmda eta beta : F) (j0 : Nat) (l : List (Sample F))
    (hl : ∀ s ∈ l, s.j ≠ j0) (st : Locals F) :
    (∀ k, k < dim →
      vector2Matrix (l.foldl (sgdStep exp toDouble numUser numService dim lmda eta beta)
          st).mem.Sdata
        numService dim j0 k = vector2Matrix st.mem.Sdata numService dim j0 k) ∧
    (l.foldl (sgdStep exp toDouble numUser numService dim lmda eta beta) st).mem.q j0 = st.mem.q j0
        ∧
    (l.foldl (sgdStep exp toDouble numUser numService dim lmda eta beta) st).es j0 = st.es j0 := by
  induction l generalizing st with
  | nil => exact ⟨fun _ _ => rfl, rfl, rfl⟩
  | cons sp l ih =>
    simp only [List.foldl]
    have hsp : j0 ≠ sp.j := fun h => hl sp (List.mem_cons_self _ _) h.symm
    obtain ⟨h1, h2, h3⟩ := ih (fun s hs => hl s (List.mem_cons_of_mem _ hs))
      (sgdStep exp toDouble numUser numService dim lmda eta beta st sp)
    obtain ⟨_, g2, _, g4, _, g6, _⟩ :=
      sgdStep_frame exp toDouble numUser numService dim lmda eta beta st sp
    exact ⟨fun k hk => (h1 k hk).trans (g2 j0 k hsp hk), h2.trans (g4 j0 hsp),
      h3.trans (g6 j0 hsp)⟩

/-- An epoch is the pass over all shuffled samples, then `getPredMatrix(false, ...)`,
the normalised loss and `iter++`. -/
theorem epoch_eq {F : Type} [LinearOrderedField F] (exp toDouble : F → F)
    (shuffle : Nat → List (Sample F) → List (Sample F)) (numUser numService dim : Nat)
    (lmda eta beta : F) (numSample : Nat) (st : Locals F) :
    epoch exp toDouble shuffle numUser numService dim lmda eta beta numSample st =
      { samplePass exp toDouble shuffle numUser numService dim lmda eta beta st
          (shuffle st.iter st.samples).length with
        mem := getPredMatrix exp toDouble false numUser numService dim
          (samplePass exp toDouble shuffle numUser numService dim lmda eta beta st
            (shuffle st.iter st.samples).length).mem
        lossValue := divCount (loss lmda numUser numService dim
          (getPredMatrix exp toDouble false numUser numService dim
            (samplePass exp toDouble shuffle numUser numService dim lmda eta beta st
              (shuffle st.iter st.samples).length).mem)) numSample
        iter := st.iter + 1 } := by
  unfold epoch epochBody samplePass
  simp only [List.take_length]

theorem epoch_fields {F : Type} [LinearOrderedField F] (exp toDouble : F → F)
    (shuffle : Nat → List (Sample F) → List (Sample F)) (numUser numService dim : Nat)
    (lmda eta beta : F) (numSample : Nat) (st : Locals F) :
    (epoch exp toDouble shuffle numUser numService dim lmda eta beta numSample st).samples =
      shuffle st.iter st.samples ∧
    (epoch exp toDouble shuffle numUser numService dim lmda eta beta numSample st).mem.removedData =
      st.mem.removedData ∧
    (epoch exp toDouble shuffle numUser numService dim lmda eta beta numSample st).mem.Udata =
      (samplePass exp toDouble shuffle numUser numService dim lmda eta beta st
        (shuffle st.iter st.samples).length).mem.Udata ∧
    (epoch exp toDouble shuffle numUser numService dim lmda eta beta numSample st).mem.Sdata =
      (samplePass exp toDouble shuffle numUser numService dim lmda eta beta st
        (shuffle st.iter st.samples).length).mem.Sdata ∧
    (epoch exp toDouble shuffle numUser numService dim lmda eta beta numSample st).mem.p =
      (samplePass exp toDouble shuffle numUser numService dim lmda eta beta st
        (shuffle st.iter st.samples).length).mem.p ∧
    (epoch exp toDouble shuffle numUser numService dim lmda eta beta numSample st).mem.q =
      (samplePass exp toDouble shuffle numUser numService dim lmda eta beta st
        (shuffle st.iter st.samples).length).mem.q ∧
    (epoch exp toDouble shuffle numUser numService dim lmda eta beta numSample st).eu =
      (samplePass exp toDouble shuffle numUser numService dim lmda eta beta st
        (shuffle st.iter st.samples).length).eu ∧
    (epoch exp toDouble shuffle numUser numService dim lmda eta beta numSample st).es =
      (samplePass exp toDouble shuffle numUser numService dim lmda eta beta st
        (shuffle st.iter st.samples).length).es := by
  rw [epoch_eq]
  obtain ⟨h1, h2, h3, h4, h5⟩ := getPredMatrix_readOnly exp toDouble false numUser numService dim
    (samplePass exp toDouble shuffle numUser numService dim lmda eta beta st
      (shuffle st.iter st.samples).length).mem
  obtain ⟨g1, _, g3, _, _⟩ := foldl_sgdStep_const exp toDouble numUser numService dim lmda eta beta
    ((shuffle st.iter st.samples).take (shuffle st.iter st.samples).length)
    { st with samples := shuffle st.iter st.samples }
  refine ⟨?_, ?_, h2, h3, h4, h5, rfl, rfl⟩
  · exact g3
  · exact h1.trans g1

/-- A property that holds on entry to the loop and is kept by every epoch holds after
any number of epochs and on exit from the loop. -/
theorem fit_invariant {F : Type} [LinearOrderedField F] (exp toDouble : F → F)
    (shuffle : Nat → List (Sample F) → List (Sample F)) (m : Mem F)
    (numUser numService dim : Nat) (lmda : F) (maxIter : Int)
    (convergeThreshold eta beta : F) (P : Locals F → Prop)
    (h0 : P (initLocals m numUser numService))
    (hstep : ∀ st, P st → P (epoch exp toDouble shuffle numUser numService dim lmda eta beta
      (extractSamples m.removedData numUser numService).2 st)) :
    (∀ n, P (afterEpochs exp toDouble shuffle m numUser numService dim lmda eta beta n)) ∧
    P (fit exp toDouble shuffle m numUser numService dim lmda maxIter convergeThreshold eta beta)
        := by
  have hall : ∀ n, P (afterEpochs exp toDouble shuffle m numUser numService dim lmda eta beta n) :=
      by
    intro n
    induction n with
    | zero => exact h0
    | succ n ih =>
      unfold afterEpochs at ih ⊢
      rw [Function.iterate_succ_apply']
      exact hstep _ ih
  refine ⟨hall, ?_⟩
  rw [(fit_first_exit exp toDouble shuffle m numUser numService dim lmda maxIter convergeThreshold
    eta beta).1]
  exact hall _

theorem samplePass_user {F : Type} [LinearOrderedField F] (exp toDouble : F → F)
    (shuffle : Nat → List (Sample F) → List (Sample F)) (numUser numService dim : Nat)
    (lmda eta beta : F) (hperm : ∀ n l, (shuffle n l).Perm l) (i0 : Nat) (st : Locals F)
    (hst : ∀ s ∈ st.samples, s.i ≠ i0) (n : Nat) :
    (∀ k, k < dim →
      vector2Matrix (samplePass exp toDouble shuffle numUser numService dim lmda eta beta st
          n).mem.Udata
        numUser dim i0 k = vector2Matrix st.mem.Udata numUser dim i0 k) ∧
    (samplePass exp toDouble shuffle numUser numService dim lmda eta beta st n).mem.p i0 =
      st.mem.p i0 ∧
    (samplePass exp toDouble shuffle numUser numService dim lmda eta beta st n).eu i0 = st.eu i0 :=
        by
  unfold samplePass
  exact foldl_sgdStep_user exp toDouble numUser numService dim lmda eta beta i0 _
    (fun s hs => hst s ((hperm st.iter st.samples).mem_iff.mp (List.mem_of_mem_take hs))) _

theorem samplePass_service {F : Type} [LinearOrderedField F] (exp toDouble : F → F)
    (shuffle : Nat → List (Sample F) → List (Sample F)) (numUser numService dim : Nat)
    (lmda eta beta : F) (hperm : ∀ n l, (shuffle n l).Perm l) (j0 : Nat) (st : Locals F)
    (hst : ∀ s ∈ st.samples, s.j ≠ j0) (n : Nat) :
    (∀ k, k < dim →
      vector2Matrix (samplePass exp toDouble shuffle numUser numService dim lmda eta beta st
          n).mem.Sdata
        numService dim j0 k = vector2Matrix st.mem.Sdata numService dim j0 k) ∧
    (samplePass exp toDouble shuffle numUser numService dim lmda eta beta st n).mem.q j0 =
      st.mem.q j0 ∧
    (samplePass exp toDouble shuffle numUser numService dim lmda eta beta st n).es j0 = st.es j0 :=
        by
  unfold samplePass
  exact foldl_sgdStep_service exp toDouble numUser numService dim lmda eta beta j0 _
    (fun s hs => hst s ((hperm st.iter st.samples).mem_iff.mp (List.mem_of_mem_take hs))) _

theorem initLocals_samples {F : Type} [LinearOrderedField F] (m : Mem F)
    (numUser numService : Nat) (s : Sample F) :
    s ∈ (initLocals m numUser numService).samples ↔
      ∃ i j, i < numUser ∧ j < numService ∧
        |vector2Matrix m.removedData numUser numService i j| > EPS ∧
        s = Sample.mk i j (vector2Matrix m.removedData numUser numService i j) := by
  unfold initLocals
  simp only
  rw [extractSamples_eq]
  exact mem_observedSamples m.removedData numUser numService s

/-- A user without observed entry keeps row `i0` of `U` and `p[i0]` through the loop. -/
theorem fit_user_unchanged {F : Type} [LinearOrderedField F] (exp toDouble : F → F)
    (shuffle : Nat → List (Sample F) → List (Sample F)) (m : Mem F)
    (numUser numService dim : Nat) (lmda : F) (maxIter : Int)
    (convergeThreshold eta beta : F) (hperm : ∀ n l, (shuffle n l).Perm l) (i0 : Nat)
    (hrow : ∀ j, j < numService →
      ¬ |vector2Matrix m.removedData numUser numService i0 j| > EPS) :
    (∀ k, k < dim →
      vector2Matrix (fit exp toDouble shuffle m numUser numService dim lmda maxIter
          convergeThreshold
        eta beta).mem.Udata numUser dim i0 k = vector2Matrix m.Udata numUser dim i0 k) ∧
    (fit exp toDouble shuffle m numUser numService dim lmda maxIter convergeThreshold
      eta beta).mem.p i0 = m.p i0 := by
  have h := (fit_invariant exp toDouble shuffle m numUser numService dim lmda maxIter
    convergeThreshold eta beta
    (fun st => (∀ s ∈ st.samples, s.i ≠ i0) ∧
      (∀ k, k < dim → vector2Matrix st.mem.Udata numUser dim i0 k =
        vector2Matrix m.Udata numUser dim i0 k) ∧ st.mem.p i0 = m.p i0)
    ?_ ?_).2
  · exact h.2
  · refine ⟨?_, fun _ _ => rfl, rfl⟩
    intro s hs hi
    obtain ⟨i, j, _, hj, hobs, rfl⟩ := (initLocals_samples m numUser numService s).mp hs
    simp only at hi
    subst hi
    exact hrow j hj hobs
  · rintro st ⟨h1, h2, h3⟩
    obtain ⟨e1, _, e3, _, e5, _⟩ := epoch_fields exp toDouble shuffle numUser numService dim lmda
      eta beta (extractSamples m.removedData numUser numService).2 st
    obtain ⟨g1, g2, _⟩ := samplePass_user exp toDouble shuffle numUser numService dim lmda eta beta
      hperm i0 st h1 (shuffle st.iter st.samples).length
    refine ⟨?_, ?_, ?_⟩
    · intro s hs
      rw [e1] at hs
      exact h1 s ((hperm st.iter st.samples).mem_iff.mp hs)
    · intro k hk
      rw [e3, g1 k hk]
      exact h2 k hk
    · rw [e5, g2]
      exact h3

/-- A service without observed entry keeps row `j0` of `S` and `q[j0]` through the loop. -/
theorem fit_service_unchanged {F : Type} [LinearOrderedField F] (exp toDouble : F → F)
    (shuffle : Nat → List (Sample F) → List (Sample F)) (m : Mem F)
    (numUser numService dim : Nat) (lmda : F) (maxIter : Int)
    (convergeThreshold eta beta : F) (hperm : ∀ n l, (shuffle n l).Perm l) (j0 : Nat)
    (hcol : ∀ i, i < numUser →
      ¬ |vector2Matrix m.removedData numUser numService i j0| > EPS) :
    (∀ k, k < dim →
      vector2Matrix (fit exp toDouble shuffle m numUser numService dim lmda maxIter
          convergeThreshold
        eta beta).mem.Sdata numService dim j0 k = vector2Matrix m.Sdata numService dim j0 k) ∧
    (fit exp toDouble shuffle m numUser numService dim lmda maxIter convergeThreshold
      eta beta).mem.q j0 = m.q j0 := by
  have h := (fit_invariant exp toDouble shuffle m numUser numService dim lmda maxIter
    convergeThreshold eta beta
    (fun st => (∀ s ∈ st.samples, s.j ≠ j0) ∧
      (∀ k, k < dim → vector2Matrix st.mem.Sdata numService dim j0 k =
        vector2Matrix m.Sdata numService dim j0 k) ∧ st.mem.q j0 = m.q j0)
    ?_ ?_).2
  · exact h.2
  · refine ⟨?_, fun _ _ => rfl, rfl⟩
    intro s hs hj
    obtain ⟨i, j, hi, _, hobs, rfl⟩ := (initLocals_samples m numUser numService s).mp hs
    simp only at hj
    subst hj
    exact hcol i hi hobs
  · rintro st ⟨h1, h2, h3⟩
    obtain ⟨e1, _, _, e4, _, e6, _⟩ := epoch_fields exp toDouble shuffle numUser numService dim lmda
      eta beta (extractSamples m.removedData numUser numService).2 st
    obtain ⟨g1, g2, _⟩ := samplePass_service exp toDouble shuffle numUser numService dim lmda eta
      beta hperm j0 st h1 (shuffle st.iter st.samples).length
    refine ⟨?_, ?_, ?_⟩
    · intro s hs
      rw [e1] at hs
      exact h1 s ((hperm st.iter st.samples).mem_iff.mp hs)
    · intro k hk
      rw [e4, g1 k hk]
      exact h2 k hk
    · rw [e6, g2]
      exact h3

/-- C19: a per-sample update for `(i, j, r)` changes only row `i` of `U`, row `j` of
`S`, `p[i]`, `q[j]`, `eu[i]` and `es[j]`; so, with shuffles that permute the samples,
a user `i0` with no observed entry in its row has `U[i0]` and `p[i0]` on return from
`AMF` equal to their initial values, and a service `j0` with no observed entry in its
column keeps `S[j0]` and `q[j0]`, for every `lmda`, `eta` and number of epochs. -/
theorem AMF_frame {F : Type} [LinearOrderedField F] (exp toDouble : F → F)
    (shuffle : Nat → List (Sample F) → List (Sample F)) (m : Mem F)
    (numUser numService dim : Nat) (lmda : F) (maxIter : Int)
    (convergeThreshold eta beta : F) (hperm : ∀ n l, (shuffle n l).Perm l) :
    (∀ (st : Locals F) (sp : Sample F),
      (∀ i0 k, i0 ≠ sp.i → k < dim →
        vector2Matrix (sgdStep exp toDouble numUser numService dim lmda eta beta st sp).mem.Udata
          numUser dim i0 k = vector2Matrix st.mem.Udata numUser dim i0 k) ∧
      (∀ j0 k, j0 ≠ sp.j → k < dim →
        vector2Matrix (sgdStep exp toDouble numUser numService dim lmda eta beta st sp).mem.Sdata
          numService dim j0 k = vector2Matrix st.mem.Sdata numService dim j0 k) ∧
      (∀ i0, i0 ≠ sp.i →
        (sgdStep exp toDouble numUser numService dim lmda eta beta st sp).mem.p i0 = st.mem.p i0) ∧
      (∀ j0, j0 ≠ sp.j →
        (sgdStep exp toDouble numUser numService dim lmda eta beta st sp).mem.q j0 = st.mem.q j0) ∧
      (∀ i0, i0 ≠ sp.i →
        (sgdStep exp toDouble numUser numService dim lmda eta beta st sp).eu i0 = st.eu i0) ∧
      (∀ j0, j0 ≠ sp.j →
        (sgdStep exp toDouble numUser numService dim lmda eta beta st sp).es j0 = st.es j0)) ∧
    (∀ i0, (∀ j, j < numService →
        ¬ |vector2Matrix m.removedData numUser numService i0 j| > EPS) →
      (∀ k, k < dim →
        vector2Matrix (AMF exp toDouble shuffle m numUser numService dim lmda maxIter
          convergeThreshold eta beta).Udata numUser dim i0 k =
          vector2Matrix m.Udata numUser dim i0 k) ∧
      (AMF exp toDouble shuffle m numUser numService dim lmda maxIter convergeThreshold
        eta beta).p i0 = m.p i0) ∧
    (∀ j0, (∀ i, i < numUser →
        ¬ |vector2Matrix m.removedData numUser numService i j0| > EPS) →
      (∀ k, k < dim →
        vector2Matrix (AMF exp toDouble shuffle m numUser numService dim lmda maxIter
          convergeThreshold eta beta).Sdata numService dim j0 k =
          vector2Matrix m.Sdata numService dim j0 k) ∧
      (AMF exp toDouble shuffle m numUser numService dim lmda maxIter convergeThreshold
        eta beta).q j0 = m.q j0) := by
  obtain ⟨_, hU, hS, hp, hq⟩ := getPredMatrix_readOnly exp toDouble true numUser numService dim
    (fit exp toDouble shuffle m numUser numService dim lmda maxIter convergeThreshold eta beta).mem
  refine ⟨?_, ?_, ?_⟩
  · intro st sp
    obtain ⟨g1, g2, g3, g4, g5, g6, _⟩ :=
      sgdStep_frame exp toDouble numUser numService dim lmda eta beta st sp
    exact ⟨g1, g2, g3, g4, g5, g6⟩
  · intro i0 hrow
    unfold AMF
    rw [hU, hp]
    exact fit_user_unchanged exp toDouble shuffle m numUser numService dim lmda maxIter
      convergeThreshold eta beta hperm i0 hrow
  · intro j0 hcol
    unfold AMF
    rw [hS, hq]
    exact fit_service_unchanged exp toDouble shuffle m numUser numService dim lmda maxIter
      convergeThreshold eta beta hperm j0 hcol

theorem sparse_row_unobserved (j : Nat) (hj : j < 2) :
    ¬ |vector2Matrix (sparseMem ℝ).removedData 2 2 1 j| > EPS := by
  interval_cases j <;> norm_num [vector2Matrix, sparseMem, EPS]

theorem AMF_frame_witness :
    vector2Matrix (AMF Real.exp roundDouble idShuffle (sparseMem ℝ) 2 2 1 0.01 100 1e-4 0.05
        0.5).Udata 2 1 1 0 = vector2Matrix (sparseMem ℝ).Udata 2 1 1 0 ∧
    (AMF Real.exp roundDouble idShuffle (sparseMem ℝ) 2 2 1 0.01 100 1e-4 0.05 0.5).p 1 =
      (sparseMem ℝ).p 1 :=
  ⟨((AMF_frame Real.exp roundDouble idShuffle (sparseMem ℝ) 2 2 1 0.01 100 1e-4 0.05 0.5
      (fun _ l => List.Perm.refl l)).2.1 1 sparse_row_unobserved).1 0 (by decide),
    ((AMF_frame Real.exp roundDouble idShuffle (sparseMem ℝ) 2 2 1 0.01 100 1e-4 0.05 0.5
      (fun _ l => List.Perm.refl l)).2.1 1 sparse_row_unobserved).2⟩

/-! ## The confidence weights: claims C11 and C18 -/

theorem weights_of_pos {F : Type} [LinearOrderedField F] (st : Locals F) (i j : Nat)
    (ha : 0 < st.eu i) (hb : 0 < st.es j) :
    st.eu i + st.es j ≠ 0 ∧ 0 < wiAt st i j ∧ wiAt st i j < 1 ∧
    0 < wjAt st i j ∧ wjAt st i j < 1 ∧ wiAt st i j + wjAt st i j = 1 := by
  have hab : 0 < st.eu i + st.es j := add_pos ha hb
  unfold wiAt wjAt
  refine ⟨ne_of_gt hab, div_pos ha hab, ?_, div_pos hb hab, ?_, ?_⟩
  · rw [div_lt_one hab]
    linarith
  · rw [div_lt_one hab]
    linarith
  · rw [← add_div, div_self (ne_of_gt hab)]

theorem eijAt_nonneg {F : Type} [LinearOrderedField F] (exp toDouble : F → F)
    (numUser numService dim : Nat) (m : Mem F) (sp : Sample F) (hr : 0 < sp.r) :
    0 ≤ eijAt exp toDouble numUser numService dim m sp := by
  unfold eijAt
  exact div_nonneg (abs_nonneg _) (le_of_lt hr)

/-- The new weight is a mix of the relative error and the old weight with a positive
share of the old weight. -/
theorem blend_pos {F : Type} [LinearOrderedField F] (beta w e a : F) (hb0 : 0 ≤ beta)
    (hb1 : beta ≤ 1) (hw0 : 0 < w) (hw1 : w < 1) (he : 0 ≤ e) (ha : 0 < a) :
    0 < beta * w * e + (1 - beta * w) * a := by
  have h1 : beta * w ≤ 1 * w := mul_le_mul_of_nonneg_right hb1 (le_of_lt hw0)
  have h2 : 0 < 1 - beta * w := by linarith
  have h3 : 0 ≤ beta * w * e := mul_nonneg (mul_nonneg hb0 (le_of_lt hw0)) he
  have h4 : 0 < (1 - beta * w) * a := mul_pos h2 ha
  linarith

theorem blend_le_one {F : Type} [LinearOrderedField F] (beta w e a : F) (hb0 : 0 ≤ beta)
    (hb1 : beta ≤ 1) (hw0 : 0 < w) (hw1 : w < 1) (he : e ≤ 1) (ha : a ≤ 1) :
    beta * w * e + (1 - beta * w) * a ≤ 1 := by
  have h0 : 0 ≤ beta * w := mul_nonneg hb0 (le_of_lt hw0)
  have h1 : beta * w ≤ 1 * w := mul_le_mul_of_nonneg_right hb1 (le_of_lt hw0)
  have h2 : 0 ≤ 1 - beta * w := by linarith
  have h3 : beta * w * e ≤ beta * w * 1 := mul_le_mul_of_nonneg_left he h0
  have h4 : (1 - beta * w) * a ≤ (1 - beta * w) * 1 := mul_le_mul_of_nonneg_left ha h2
  linarith

theorem sgdStep_pos {F : Type} [LinearOrderedField F] (exp toDouble : F → F)
    (numUser numService dim : Nat) (lmda eta beta : F) (st : Locals F) (sp : Sample F)
    (hb0 : 0 ≤ beta) (hb1 : beta ≤ 1) (hr : 0 < sp.r)
    (heu : ∀ x, 0 < st.eu x) (hes : ∀ y, 0 < st.es y) :
    (∀ x, 0 < (sgdStep exp toDouble numUser numService dim lmda eta beta st sp).eu x) ∧
    (∀ y, 0 < (sgdStep exp toDouble numUser numService dim lmda eta beta st sp).es y) := by
  obtain ⟨_, w1, w2, w3, w4, _⟩ := weights_of_pos st sp.i sp.j (heu sp.i) (hes sp.j)
  have he := eijAt_nonneg exp toDouble numUser numService dim st.mem sp hr
  rw [sgdStep_eq]
  constructor
  · intro x
    by_cases hx : x = sp.i
    · subst hx
      simp only [Function.update_same]
      exact blend_pos beta _ _ _ hb0 hb1 w1 w2 he (heu sp.i)
    · simp only [Function.update_noteq hx]
      exact heu x
  · intro y
    by_cases hy : y = sp.j
    · subst hy
      simp only [Function.update_same]
      exact blend_pos beta _ _ _ hb0 hb1 w3 w4 he (hes sp.j)
    · simp only [Function.update_noteq hy]
      exact hes y

theorem foldl_sgdStep_pos {F : Type} [LinearOrderedField F] (exp toDouble : F → F)
    (numUser numService dim : Nat) (lmda eta beta : F) (hb0 : 0 ≤ beta) (hb1 : beta ≤ 1)
    (l : List (Sample F)) (hl : ∀ s ∈ l, 0 < s.r) (st : Locals F)
    (heu : ∀ x, 0 < st.eu x) (hes : ∀ y, 0 < st.es y) :
    (∀ x, 0 < (l.foldl (sgdStep exp toDouble numUser numService dim lmda eta beta) st).eu x) ∧
    (∀ y, 0 < (l.foldl (sgdStep exp toDouble numUser numService dim lmda eta beta) st).es y) := by
  induction l generalizing st with
  | nil => exact ⟨heu, hes⟩
  | cons sp l ih =>
    simp only [List.foldl]
    obtain ⟨g1, g2⟩ := sgdStep_pos exp toDouble numUser numService dim lmda eta beta st sp hb0 hb1
      (hl sp (List.mem_cons_self _ _)) heu hes
    exact ih (fun s hs => hl s (List.mem_cons_of_mem _ hs)) _ g1 g2

theorem samplePass_pos {F : Type} [LinearOrderedField F] (exp toDouble : F → F)
    (shuffle : Nat → List (Sample F) → List (Sample F)) (numUser numService dim : Nat)
    (lmda eta beta : F) (hb0 : 0 ≤ beta) (hb1 : beta ≤ 1)
    (hperm : ∀ n l, (shuffle n l).Perm l) (st : Locals F)
    (hst : ∀ s ∈ st.samples, 0 < s.r) (heu : ∀ x, 0 < st.eu x) (hes : ∀ y, 0 < st.es y)
    (k : Nat) :
    (∀ x, 0 < (samplePass exp toDouble shuffle numUser numService dim lmda eta beta st k).eu x) ∧
    (∀ y, 0 < (samplePass exp toDouble shuffle numUser numService dim lmda eta beta st k).es y) :=
        by
  unfold samplePass
  exact foldl_sgdStep_pos exp toDouble numUser numService dim lmda eta beta hb0 hb1 _
    (fun s hs => hst s ((hperm st.iter st.samples).mem_iff.mp (List.mem_of_mem_take hs)))
    _ heu hes

/-- With positive observed values and `0 <= beta <= 1` the samples keep positive values
and the confidence weights stay positive, at the start of every epoch. -/
theorem afterEpochs_pos {F : Type} [LinearOrderedField F] (exp toDouble : F → F)
    (shuffle : Nat → List (Sample F) → List (Sample F)) (m : Mem F)
    (numUser numService dim : Nat) (lmda eta beta : F)
    (hobs : ∀ i j, i < numUser → j < numService →
      |vector2Matrix m.removedData numUser numService i j| > EPS →
      0 < vector2Matrix m.removedData numUser numService i j)
    (hb0 : 0 ≤ beta) (hb1 : beta ≤ 1) (hperm : ∀ n l, (shuffle n l).Perm l) (n : Nat) :
    (∀ s ∈ (afterEpochs exp toDouble shuffle m numUser numService dim lmda eta beta n).samples,
      0 < s.r) ∧
    (∀ x, 0 < (afterEpochs exp toDouble shuffle m numUser numService dim lmda eta beta n).eu x) ∧
    (∀ y, 0 < (afterEpochs exp toDouble shuffle m numUser numService dim lmda eta beta n).es y) :=
        by
  refine (fit_invariant exp toDouble shuffle m numUser numService dim lmda 0 0 eta beta
    (fun st => (∀ s ∈ st.samples, 0 < s.r) ∧ (∀ x, 0 < st.eu x) ∧ (∀ y, 0 < st.es y))
    ?_ ?_).1 n
  · refine ⟨?_, fun _ => one_pos, fun _ => one_pos⟩
    intro s hs
    obtain ⟨i, j, hi, hj, h, rfl⟩ := (initLocals_samples m numUser numService s).mp hs
    exact hobs i j hi hj h
  · rintro st ⟨h1, h2, h3⟩
    obtain ⟨e1, _, _, _, _, _, e7, e8⟩ := epoch_fields exp toDouble shuffle numUser numService dim
      lmda eta beta (extractSamples m.removedData numUser numService).2 st
    obtain ⟨g1, g2⟩ := samplePass_pos exp toDouble shuffle numUser numService dim lmda eta beta
      hb0 hb1 hperm st h1 h2 h3 (shuffle st.iter st.samples).length
    refine ⟨?_, ?_, ?_⟩
    · intro s hs
      rw [e1] at hs
      exact h1 s ((hperm st.iter st.samples).mem_iff.mp hs)
    · rw [e7]
      exact g1
    · rw [e8]
      exact g2

/-- The state after `k + 1` samples of an epoch is the per-sample update, for the
sample at index `k` of the shuffled vector, of the state after `k` samples. -/
theorem samplePass_succ {F : Type} [LinearOrderedField F] (exp toDouble : F → F)
    (shuffle : Nat → List (Sample F) → List (Sample F)) (numUser numService dim : Nat)
    (lmda eta beta : F) (st : Locals F) (k : Nat)
    (hk : k < (shuffle st.iter st.samples).length) :
    samplePass exp toDouble shuffle numUser numService dim lmda eta beta st (k + 1) =
      sgdStep exp toDouble numUser numService dim lmda eta beta
        (samplePass exp toDouble shuffle numUser numService dim lmda eta beta st k)
        ((shuffle st.iter st.samples).get ⟨k, hk⟩) := by
  unfold samplePass
  rw [List.take_succ, List.foldl_append, List.getElem?_eq_getElem hk]
  rfl

/-- C18: if every observed value above the epsilon filter is positive, `0 <= beta <= 1`
and the shuffles permute the samples, then in every epoch, after any number `k` of its
samples, every confidence weight is strictly positive; so for the next sample the
denominator `eu[i] + es[j]` is nonzero and `0 < wi < 1`, `0 < wj < 1`, `wi + wj = 1`. -/
theorem confidence_positive {F : Type} [LinearOrderedField F] (exp toDouble : F → F)
    (shuffle : Nat → List (Sample F) → List (Sample F)) (m : Mem F)
    (numUser numService dim : Nat) (lmda eta beta : F)
    (hobs : ∀ i j, i < numUser → j < numService →
      |vector2Matrix m.removedData numUser numService i j| > EPS →
      0 < vector2Matrix m.removedData numUser numService i j)
    (hb0 : 0 ≤ beta) (hb1 : beta ≤ 1) (hperm : ∀ n l, (shuffle n l).Perm l)
    (n k : Nat) :
    (∀ x, 0 < (samplePass exp toDouble shuffle numUser numService dim lmda eta beta
      (afterEpochs exp toDouble shuffle m numUser numService dim lmda eta beta n) k).eu x) ∧
    (∀ y, 0 < (samplePass exp toDouble shuffle numUser numService dim lmda eta beta
      (afterEpochs exp toDouble shuffle m numUser numService dim lmda eta beta n) k).es y) ∧
    ∀ i j,
      (samplePass exp toDouble shuffle numUser numService dim lmda eta beta
          (afterEpochs exp toDouble shuffle m numUser numService dim lmda eta beta n) k).eu i +
        (samplePass exp toDouble shuffle numUser numService dim lmda eta beta
          (afterEpochs exp toDouble shuffle m numUser numService dim lmda eta beta n) k).es j ≠ 0 ∧
      0 < wiAt (samplePass exp toDouble shuffle numUser numService dim lmda eta beta
        (afterEpochs exp toDouble shuffle m numUser numService dim lmda eta beta n) k) i j ∧
      wiAt (samplePass exp toDouble shuffle numUser numService dim lmda eta beta
        (afterEpochs exp toDouble shuffle m numUser numService dim lmda eta beta n) k) i j < 1 ∧
      0 < wjAt (samplePass exp toDouble shuffle numUser numService dim lmda eta beta
        (afterEpochs exp toDouble shuffle m numUser numService dim lmda eta beta n) k) i j ∧
      wjAt (samplePass exp toDouble shuffle numUser numService dim lmda eta beta
        (afterEpochs exp toDouble shuffle m numUser numService dim lmda eta beta n) k) i j < 1 ∧
      wiAt (samplePass exp toDouble shuffle numUser numService dim lmda eta beta
          (afterEpochs exp toDouble shuffle m numUser numService dim lmda eta beta n) k) i j +
        wjAt (samplePass exp toDouble shuffle numUser numService dim lmda eta beta
          (afterEpochs exp toDouble shuffle m numUser numService dim lmda eta beta n) k) i j = 1 :=
              by
  obtain ⟨h1, h2, h3⟩ := afterEpochs_pos exp toDouble shuffle m numUser numService dim lmda eta beta
    hobs hb0 hb1 hperm n
  obtain ⟨g1, g2⟩ := samplePass_pos exp toDouble shuffle numUser numService dim lmda eta beta
    hb0 hb1 hperm _ h1 h2 h3 k
  exact ⟨g1, g2, fun i j => weights_of_pos _ i j (g1 i) (g2 j)⟩

theorem scenario_observed_pos (i j : Nat) (hi : i < 2) (hj : j < 2)
    (h : |vector2Matrix (scenarioMem ℝ).removedData 2 2 i j| > EPS) :
    0 < vector2Matrix (scenarioMem ℝ).removedData 2 2 i j := by
  interval_cases i <;> interval_cases j <;>
    norm_num [vector2Matrix, scenarioMem, EPS] at h ⊢

theorem confidence_positive_witness :
    0 < (samplePass Real.exp roundDouble idShuffle 2 2 1 0.01 0.05 0.5
      (afterEpochs Real.exp roundDouble idShuffle (scenarioMem ℝ) 2 2 1 0.01 0.05 0.5 3) 1).eu 0 :=
  (confidence_positive Real.exp roundDouble idShuffle (scenarioMem ℝ) 2 2 1 0.01 0.05 0.5
    scenario_observed_pos (by norm_num) (by norm_num) (fun _ l => List.Perm.refl l) 3 1).1 0

theorem tiny_samples :
    extractSamples (tinyMem ℝ).removedData 1 1 = ([Sample.mk 0 0 0.01], 1) := by
  norm_num [extractSamples, forLoop, vector2Matrix, tinyMem, EPS, abs_of_pos]

/-- C11, as stated, fails: for the single observed value `0.01`, zero factors and
`beta = 0.5`, the first prediction is `0.5`, the relative error is 49, and the first
confidence update sets `eu[0]` to 13, which is what `AMF` with `maxIter = 1` ends
with. -/
theorem confidence_exceeds_one :
    (fit Real.exp roundDouble idShuffle (tinyMem ℝ) 1 1 1 0.01 1 1e-4 0.05 0.5).eu 0 = 13 ∧
    ¬ ((fit Real.exp roundDouble idShuffle (tinyMem ℝ) 1 1 1 0.01 1 1e-4 0.05 0.5).eu 0 ≤ 1) := by
  have hiter : (fit Real.exp roundDouble idShuffle (tinyMem ℝ) 1 1 1 0.01 1 1e-4 0.05 0.5).iter = 1
      := by
    have h := fit_iter_eq_of_lt Real.exp roundDouble idShuffle (tinyMem ℝ) 1 1 1 0.01 1 1e-4
      0.05 0.5 (by decide)
    have h1 : max (1 : Int) 0 = 1 := by decide
    rw [h1] at h
    exact_mod_cast h
  have hfit := (fit_first_exit Real.exp roundDouble idShuffle (tinyMem ℝ) 1 1 1 0.01 1 1e-4
    0.05 0.5).1
  rw [hiter] at hfit
  have hval : (fit Real.exp roundDouble idShuffle (tinyMem ℝ) 1 1 1 0.01 1 1e-4 0.05 0.5).eu 0 = 13
      := by
    rw [hfit]
    unfold afterEpochs
    rw [Function.iterate_one]
    obtain ⟨_, _, _, _, _, _, e7, _⟩ := epoch_fields Real.exp roundDouble idShuffle 1 1 1 0.01 0.05
        0.5
      (extractSamples (tinyMem ℝ).removedData 1 1).2 (initLocals (tinyMem ℝ) 1 1)
    rw [e7]
    have hs : (initLocals (tinyMem ℝ) 1 1).samples = [Sample.mk 0 0 0.01] := by
      simp only [initLocals, tiny_samples]
    unfold samplePass
    simp only [idShuffle, hs, List.length_singleton, List.take_succ_cons, List.take_zero,
      List.foldl]
    rw [sgdStep_eq]
    simp only [Function.update_same]
    simp [wiAt, eijAt, predAt, qosAt, sigmoid_zero, vector2Matrix, initLocals, tinyMem]
    norm_num [abs_of_pos]
  refine ⟨hval, ?_⟩
  rw [hval]
  norm_num

/-- C11, amended: `eu` and `es` start at 1.0, and a per-sample confidence update for a
sample with `r > 0` and relative error `eij <= 1`, with `0 <= beta <= 1`, keeps every
weight in `(0, 1]` when every weight was in `(0, 1]` before it. -/
theorem confidence_unit_interval {F : Type} [LinearOrderedField F] (exp toDouble : F → F)
    (m : Mem F) (numUser numService dim : Nat) (lmda eta beta : F) (st : Locals F)
    (sp : Sample F) (hb0 : 0 ≤ beta) (hb1 : beta ≤ 1) (hr : 0 < sp.r)
    (heij : eijAt exp toDouble numUser numService dim st.mem sp ≤ 1)
    (heu : ∀ x, 0 < st.eu x ∧ st.eu x ≤ 1) (hes : ∀ y, 0 < st.es y ∧ st.es y ≤ 1) :
    (∀ x, (initLocals m numUser numService).eu x = 1) ∧
    (∀ y, (initLocals m numUser numService).es y = 1) ∧
    (∀ x, 0 < (sgdStep exp toDouble numUser numService dim lmda eta beta st sp).eu x ∧
      (sgdStep exp toDouble numUser numService dim lmda eta beta st sp).eu x ≤ 1) ∧
    (∀ y, 0 < (sgdStep exp toDouble numUser numService dim lmda eta beta st sp).es y ∧
      (sgdStep exp toDouble numUser numService dim lmda eta beta st sp).es y ≤ 1) := by
  obtain ⟨p1, p2⟩ := sgdStep_pos exp toDouble numUser numService dim lmda eta beta st sp hb0 hb1 hr
    (fun x => (heu x).1) (fun y => (hes y).1)
  obtain ⟨_, w1, w2, w3, w4, _⟩ := weights_of_pos st sp.i sp.j (heu sp.i).1 (hes sp.j).1
  refine ⟨fun _ => rfl, fun _ => rfl, fun x => ⟨p1 x, ?_⟩, fun y => ⟨p2 y, ?_⟩⟩
  · rw [sgdStep_eq]
    by_cases hx : x = sp.i
    · subst hx
      simp only [Function.update_same]
      exact blend_le_one beta _ _ _ hb0 hb1 w1 w2 heij (heu sp.i).2
    · simp only [Function.update_noteq hx]
      exact (heu x).2
  · rw [sgdStep_eq]
    by_cases hy : y = sp.j
    · subst hy
      simp only [Function.update_same]
      exact blend_le_one beta _ _ _ hb0 hb1 w3 w4 heij (hes sp.j).2
    · simp only [Function.update_noteq hy]
      exact (hes y).2

theorem scenario_first_eij :
    eijAt Real.exp roundDouble 2 2 1 (initLocals (scenarioMem ℝ) 2 2).mem (Sample.mk 0 0 0.5) ≤ 1
        := by
  simp [eijAt, predAt, qosAt, sigmoid_zero, vector2Matrix, initLocals, scenarioMem]
  norm_num

theorem confidence_unit_interval_witness :
    0 < (sgdStep Real.exp roundDouble 2 2 1 0.01 0.05 0.5 (initLocals (scenarioMem ℝ) 2 2)
      (Sample.mk 0 0 0.5)).eu 0 ∧
    (sgdStep Real.exp roundDouble 2 2 1 0.01 0.05 0.5 (initLocals (scenarioMem ℝ) 2 2)
      (Sample.mk 0 0 0.5)).eu 0 ≤ 1 :=
  (confidence_unit_interval Real.exp roundDouble (scenarioMem ℝ) 2 2 1 0.01 0.05 0.5
    (initLocals (scenarioMem ℝ) 2 2) (Sample.mk 0 0 0.5) (by norm_num) (by norm_num)
    (by norm_num) scenario_first_eij
    (fun _ => ⟨one_pos, le_refl 1⟩) (fun _ => ⟨one_pos, le_refl 1⟩)).2.2.1 0

/-! ## Zero samples: claims C13 and C14 -/

theorem extractSamples_none {F : Type} [LinearOrderedField F] (removedData : Nat → F)
    (numUser numService : Nat)
    (hzero : ∀ i j, i < numUser → j < numService →
      ¬ |vector2Matrix removedData numUser numService i j| > EPS) :
    extractSamples removedData numUser numService = ([], 0) := by
  have h : observedSamples removedData numUser numService = [] := by
    rw [List.eq_nil_iff_forall_not_mem]
    intro s hs
    obtain ⟨i, j, hi, hj, hobs, _⟩ :=
      (mem_observedSamples removedData numUser numService s).mp hs
    exact hzero i j hi hj hobs
  rw [extractSamples_eq, h]
  rfl

theorem getPredMatrix_none {F : Type} [LinearOrderedField F] (exp toDouble : F → F)
    (numUser numService dim : Nat) (m : Mem F)
    (hzero : ∀ i j, i < numUser → j < numService →
      ¬ |vector2Matrix m.removedData numUser numService i j| > EPS) :
    getPredMatrix exp toDouble false numUser numService dim m = m := by
  rw [getPredMatrix_eq]
  have h : (fun x => if x < numUser * numService ∧
      (false = true ∨ |m.removedData x| > EPS) then cellValue exp toDouble numService dim m x
      else m.predData x) = m.predData := by
    funext x
    rw [if_neg]
    rintro ⟨hx, h | h⟩
    · exact absurd h (by decide)
    · have hpos : 0 < numService := by
        rcases Nat.eq_zero_or_pos numService with h0 | h0
        · rw [h0, Nat.mul_zero] at hx
          exact absurd hx (Nat.not_lt_zero x)
        · exact h0
      have h1 : x / numService < numUser := by
        rw [Nat.div_lt_iff_lt_mul hpos]
        exact hx
      have h2 : x % numService < numService := Nat.mod_lt x hpos
      have h3 : x / numService * numService + x % numService = x := by
        rw [Nat.mul_comm]
        exact Nat.div_add_mod x numService
      have := hzero (x / numService) (x % numService) h1 h2
      simp only [vector2Matrix, h3] at this
      exact this h
  rw [h]

/-- Without samples an epoch leaves the storage and the empty sample vector as they
are. -/
theorem epoch_none {F : Type} [LinearOrderedField F] (exp toDouble : F → F)
    (shuffle : Nat → List (Sample F) → List (Sample F)) (numUser numService dim : Nat)
    (lmda eta beta : F) (numSample : Nat) (hperm : ∀ n l, (shuffle n l).Perm l)
    (st : Locals F) (hs : st.samples = [])
    (hzero : ∀ i j, i < numUser → j < numService →
      ¬ |vector2Matrix st.mem.removedData numUser numService i j| > EPS) :
    (epoch exp toDouble shuffle numUser numService dim lmda eta beta numSample st).samples = [] ∧
    (epoch exp toDouble shuffle numUser numService dim lmda eta beta numSample st).mem = st.mem ∧
    (epoch exp toDouble shuffle numUser numService dim lmda eta beta numSample st).lossValue =
      divCount (loss lmda numUser numService dim st.mem) numSample := by
  have hsh : shuffle st.iter st.samples = [] := by
    have h := hperm st.iter st.samples
    rw [hs] at h ⊢
    exact List.Perm.eq_nil h
  have hpass : samplePass exp toDouble shuffle numUser numService dim lmda eta beta st
      (shuffle st.iter st.samples).length = { st with samples := [] } := by
    unfold samplePass
    rw [hsh]
    rfl
  have hg := getPredMatrix_none exp toDouble numUser numService dim st.mem hzero
  rw [epoch_eq, hpass]
  refine ⟨rfl, hg, ?_⟩
  show divCount (loss lmda numUser numService dim
    (getPredMatrix exp toDouble false numUser numService dim st.mem)) numSample = _
  rw [hg]

theorem afterEpochs_none {F : Type} [LinearOrderedField F] (exp toDouble : F → F)
    (shuffle : Nat → List (Sample F) → List (Sample F)) (m : Mem F)
    (numUser numService dim : Nat) (lmda eta beta : F)
    (hzero : ∀ i j, i < numUser → j < numService →
      ¬ |vector2Matrix m.removedData numUser numService i j| > EPS)
    (hperm : ∀ n l, (shuffle n l).Perm l) (n : Nat) :
    (afterEpochs exp toDouble shuffle m numUser numService dim lmda eta beta n).samples = [] ∧
    (afterEpochs exp toDouble shuffle m numUser numService dim lmda eta beta n).mem = m ∧
    (afterEpochs exp toDouble shuffle m numUser numService dim lmda eta beta (n + 1)).lossValue =
      divCount (loss lmda numUser numService dim m) 0 := by
  have hnum : (extractSamples m.removedData numUser numService).2 = 0 := by
    rw [extractSamples_none m.removedData numUser numService hzero]
  have hinv : (afterEpochs exp toDouble shuffle m numUser numService dim lmda eta beta n).samples =
      [] ∧
      (afterEpochs exp toDouble shuffle m numUser numService dim lmda eta beta n).mem = m := by
    refine (fit_invariant exp toDouble shuffle m numUser numService dim lmda 0 0 eta beta
      (fun st => st.samples = [] ∧ st.mem = m) ?_ ?_).1 n
    · constructor
      · simp only [initLocals, extractSamples_none m.removedData numUser numService hzero]
      · rfl
    · rintro st ⟨h1, h2⟩
      obtain ⟨g1, g2, _⟩ := epoch_none exp toDouble shuffle numUser numService dim lmda eta beta
        (extractSamples m.removedData numUser numService).2 hperm st h1 (by rw [h2]; exact hzero)
      exact ⟨g1, g2.trans h2⟩
  refine ⟨hinv.1, hinv.2, ?_⟩
  have hstep : afterEpochs exp toDouble shuffle m numUser numService dim lmda eta beta (n + 1) =
      epoch exp toDouble shuffle numUser numService dim lmda eta beta
        (extractSamples m.removedData numUser numService).2
        (afterEpochs exp toDouble shuffle m numUser numService dim lmda eta beta n) := by
    unfold afterEpochs
    rw [Function.iterate_succ_apply']
  rw [hstep]
  obtain ⟨_, _, g3⟩ := epoch_none exp toDouble shuffle numUser numService dim lmda eta beta
    (extractSamples m.removedData numUser numService).2 hperm
    (afterEpochs exp toDouble shuffle m numUser numService dim lmda eta beta n) hinv.1
    (by rw [hinv.2]; exact hzero)
  rw [g3, hinv.2, hnum]

/-- C13: when no entry of the observed matrix exceeds `1e-8` in absolute value (zero
samples) and the shuffles permute the samples, `AMF` returns (the loop is the state
after finitely many epochs), `U`, `S`, `p` and `q` on return are the caller's initial
values, and every `prediction[i][j]` is `sigmoid(p[i] + q[j] + dotProduct(U[i], S[j], dim))`
of those initial values. -/
theorem AMF_no_samples {F : Type} [LinearOrderedField F] (exp toDouble : F → F)
    (shuffle : Nat → List (Sample F) → List (Sample F)) (m : Mem F)
    (numUser numService dim : Nat) (lmda : F) (maxIter : Int)
    (convergeThreshold eta beta : F)
    (hzero : ∀ i j, i < numUser → j < numService →
      ¬ |vector2Matrix m.removedData numUser numService i j| > EPS)
    (hperm : ∀ n l, (shuffle n l).Perm l) :
    fit exp toDouble shuffle m numUser numService dim lmda maxIter convergeThreshold eta beta =
      afterEpochs exp toDouble shuffle m numUser numService dim lmda eta beta
        (fit exp toDouble shuffle m numUser numService dim lmda maxIter convergeThreshold
          eta beta).iter ∧
    (AMF exp toDouble shuffle m numUser numService dim lmda maxIter convergeThreshold
      eta beta).Udata = m.Udata ∧
    (AMF exp toDouble shuffle m numUser numService dim lmda maxIter convergeThreshold
      eta beta).Sdata = m.Sdata ∧
    (AMF exp toDouble shuffle m numUser numService dim lmda maxIter convergeThreshold
      eta beta).p = m.p ∧
    (AMF exp toDouble shuffle m numUser numService dim lmda maxIter convergeThreshold
      eta beta).q = m.q ∧
    ∀ i j, i < numUser → j < numService →
      vector2Matrix (AMF exp toDouble shuffle m numUser numService dim lmda maxIter
          convergeThreshold eta beta).predData numUser numService i j =
        sigmoid exp toDouble (m.p i + m.q j +
          dotProduct (vector2Matrix m.Udata numUser dim i)
            (vector2Matrix m.Sdata numService dim j) dim) := by
  have hfix := (fit_first_exit exp toDouble shuffle m numUser numService dim lmda maxIter
    convergeThreshold eta beta).1
  have hmem : (fit exp toDouble shuffle m numUser numService dim lmda maxIter convergeThreshold
      eta beta).mem = m := by
    rw [hfix]
    exact (afterEpochs_none exp toDouble shuffle m numUser numService dim lmda eta beta hzero
      hperm _).2.1
  obtain ⟨_, hU, hS, hp, hq⟩ := getPredMatrix_readOnly exp toDouble true numUser numService dim
    (fit exp toDouble shuffle m numUser numService dim lmda maxIter convergeThreshold eta beta).mem
  refine ⟨hfix, ?_, ?_, ?_, ?_, ?_⟩
  · unfold AMF
    rw [hU, hmem]
  · unfold AMF
    rw [hS, hmem]
  · unfold AMF
    rw [hp, hmem]
  · unfold AMF
    rw [hq, hmem]
  · intro i j hi hj
    rw [AMF_predData exp toDouble shuffle m numUser numService dim lmda maxIter convergeThreshold
      eta beta i j hi hj, cellValue_flat exp toDouble numUser numService dim i j hj, hmem]

theorem emptyMem_none (i j : Nat) (_hi : i < 2) (_hj : j < 2) :
    ¬ |vector2Matrix (emptyMem ℝ).removedData 2 2 i j| > EPS := by
  norm_num [vector2Matrix, emptyMem, EPS]

theorem AMF_no_samples_witness :
    (AMF Real.exp roundDouble idShuffle (emptyMem ℝ) 2 2 1 0.01 100 1e-4 0.05 0.5).Udata =
      (emptyMem ℝ).Udata ∧
    (AMF Real.exp roundDouble idShuffle (emptyMem ℝ) 2 2 1 0.01 100 1e-4 0.05 0.5).p =
      (emptyMem ℝ).p :=
  ⟨(AMF_no_samples Real.exp roundDouble idShuffle (emptyMem ℝ) 2 2 1 0.01 100 1e-4 0.05 0.5
      emptyMem_none (fun _ l => List.Perm.refl l)).2.1,
    (AMF_no_samples Real.exp roundDouble idShuffle (emptyMem ℝ) 2 2 1 0.01 100 1e-4 0.05 0.5
      emptyMem_none (fun _ l => List.Perm.refl l)).2.2.2.1⟩

/-- C14, as stated, fails: the 2 x 2 matrix of zeros yields no sample and
`numSample = 0`, yet with `maxIter = 5` the loop executes 5 epochs. -/
theorem no_samples_epochs_run :
    extractSamples (emptyMem ℝ).removedData 2 2 = ([], 0) ∧
    (fit Real.exp roundDouble idShuffle (emptyMem ℝ) 2 2 1 0.01 5 1e-4 0.05 0.5).iter = 5 ∧
    ¬ ((fit Real.exp roundDouble idShuffle (emptyMem ℝ) 2 2 1 0.01 5 1e-4 0.05 0.5).iter = 0) := by
  have h := fit_iter_eq_of_lt Real.exp roundDouble idShuffle (emptyMem ℝ) 2 2 1 0.01 5 1e-4
    0.05 0.5 (by decide)
  have h5 : max (5 : Int) 0 = 5 := by decide
  rw [h5] at h
  have hn : (fit Real.exp roundDouble idShuffle (emptyMem ℝ) 2 2 1 0.01 5 1e-4 0.05 0.5).iter = 5
      := by
    exact_mod_cast h
  refine ⟨extractSamples_none _ 2 2 emptyMem_none, hn, ?_⟩
  rw [hn]
  decide

/-- C14, amended: with zero extracted samples (and shuffles that permute the samples)
`AMF` does not short-circuit: `numSample` is 0 and the loop runs `n` epochs with
`n <= max(maxIter, 0)` and `n >= maxIter` whenever `n < 30`, so no epoch is executed
exactly when `maxIter <= 0`; every epoch leaves the storage as it was and assigns
`lossValue = loss(...) / numSample` with `numSample = 0`, which is `+inf`, `-inf` or
NaN by the sign of the loss. -/
theorem no_samples_loop {F : Type} [LinearOrderedField F] (exp toDouble : F → F)
    (shuffle : Nat → List (Sample F) → List (Sample F)) (m : Mem F)
    (numUser numService dim : Nat) (lmda : F) (maxIter : Int)
    (convergeThreshold eta beta : F)
    (hzero : ∀ i j, i < numUser → j < numService →
      ¬ |vector2Matrix m.removedData numUser numService i j| > EPS)
    (hperm : ∀ n l, (shuffle n l).Perm l) :
    extractSamples m.removedData numUser numService = ([], 0) ∧
    ((fit exp toDouble shuffle m numUser numService dim lmda maxIter convergeThreshold
      eta beta).iter : Int) ≤ max maxIter 0 ∧
    ((fit exp toDouble shuffle m numUser numService dim lmda maxIter convergeThreshold
        eta beta).iter < 30 →
      ((fit exp toDouble shuffle m numUser numService dim lmda maxIter convergeThreshold
        eta beta).iter : Int) ≥ maxIter) ∧
    ((fit exp toDouble shuffle m numUser numService dim lmda maxIter convergeThreshold
      eta beta).iter = 0 ↔ maxIter ≤ 0) ∧
    ∀ k,
      (afterEpochs exp toDouble shuffle m numUser numService dim lmda eta beta k).mem = m ∧
      (afterEpochs exp toDouble shuffle m numUser numService dim lmda eta beta (k + 1)).lossValue =
        divCount (loss lmda numUser numService dim m) 0 := by
  have hle := fit_iter_le exp toDouble shuffle m numUser numService dim lmda maxIter
    convergeThreshold eta beta
  have hge := fit_iter_ge_of_lt_minIter exp toDouble shuffle m numUser numService dim lmda maxIter
    convergeThreshold eta beta
  refine ⟨extractSamples_none m.removedData numUser numService hzero, hle, hge, ?_, ?_⟩
  · constructor
    · intro h0
      have := hge (by omega)
      omega
    · intro hmax
      rw [max_eq_right hmax] at hle
      omega
  · intro k
    exact (afterEpochs_none exp toDouble shuffle m numUser numService dim lmda eta beta hzero
      hperm k).2

theorem no_samples_loop_witness :
    ((fit Real.exp roundDouble idShuffle (emptyMem ℝ) 2 2 1 0.01 100 1e-4 0.05 0.5).iter = 0 ↔
      (100 : Int) ≤ 0) :=
  (no_samples_loop Real.exp roundDouble idShuffle (emptyMem ℝ) 2 2 1 0.01 100 1e-4 0.05 0.5
    emptyMem_none (fun _ l => List.Perm.refl l)).2.2.2.1

/-! ## Independence of the initial prediction buffer: claim C20 -/

theorem loss_pred_congr {F : Type} [LinearOrderedField F] (lmda : F)
    (numUser numService dim : Nat) (m : Mem F) (f g : Nat → F)
    (h : ∀ x, x < numUser * numService → |m.removedData x| > EPS → f x = g x) :
    loss lmda numUser numService dim { m with predData := f } =
      loss lmda numUser numService dim { m with predData := g } := by
  rw [loss_eq_lossSpec, loss_eq_lossSpec]
  unfold lossSpec
  congr 1
  refine Finset.sum_congr rfl (fun i hi => Finset.sum_congr rfl (fun j hj => ?_))
  simp only [vector2Matrix]
  by_cases hg : |m.removedData (i * numService + j)| > EPS
  · simp only [hg, if_true]
    rw [h _ (flatIndex_lt (Finset.mem_range.mp hi) (Finset.mem_range.mp hj)) hg]
  · simp only [hg, if_false]

theorem sgdStep_setPred {F : Type} [LinearOrderedField F] (exp toDouble : F → F)
    (numUser numService dim : Nat) (lmda eta beta : F) (f : Nat → F) (st : Locals F)
    (sp : Sample F) :
    sgdStep exp toDouble numUser numService dim lmda eta beta (setPred f st) sp =
      setPred f (sgdStep exp toDouble numUser numService dim lmda eta beta st sp) := by
  rw [sgdStep_eq, sgdStep_eq]
  rfl

theorem foldl_sgdStep_setPred {F : Type} [LinearOrderedField F] (exp toDouble : F → F)
    (numUser numService dim : Nat) (lmda eta beta : F) (f : Nat → F)
    (l : List (Sample F)) (st : Locals F) :
    l.foldl (sgdStep exp toDouble numUser numService dim lmda eta beta) (setPred f st) =
      setPred f (l.foldl (sgdStep exp toDouble numUser numService dim lmda eta beta) st) := by
  induction l generalizing st with
  | nil => rfl
  | cons sp l ih =>
    simp only [List.foldl]
    rw [sgdStep_setPred, ih]

theorem samplePass_setPred {F : Type} [LinearOrderedField F] (exp toDouble : F → F)
    (shuffle : Nat → List (Sample F) → List (Sample F)) (numUser numService dim : Nat)
    (lmda eta beta : F) (f : Nat → F) (st : Locals F) (k : Nat) :
    samplePass exp toDouble shuffle numUser numService dim lmda eta beta (setPred f st) k =
      setPred f (samplePass exp toDouble shuffle numUser numService dim lmda eta beta st k) := by
  unfold samplePass
  exact foldl_sgdStep_setPred exp toDouble numUser numService dim lmda eta beta f _
    { st with samples := shuffle st.iter st.samples }

/-- An epoch started from a state that differs only in the prediction buffer ends in a
state that differs only in the prediction buffer; in particular the loss is the same. -/
theorem epoch_setPred {F : Type} [LinearOrderedField F] (exp toDouble : F → F)
    (shuffle : Nat → List (Sample F) → List (Sample F)) (numUser numService dim : Nat)
    (lmda eta beta : F) (numSample : Nat) (f : Nat → F) (st : Locals F) :
    ∃ g, epoch exp toDouble shuffle numUser numService dim lmda eta beta numSample (setPred f st) =
      setPred g (epoch exp toDouble shuffle numUser numService dim lmda eta beta numSample st) := by
  refine ⟨(getPredMatrix exp toDouble false numUser numService dim
    (samplePass exp toDouble shuffle numUser numService dim lmda eta beta (setPred f st)
      (shuffle st.iter st.samples).length).mem).predData, ?_⟩
  have hl : loss lmda numUser numService dim
      (getPredMatrix exp toDouble false numUser numService dim
        (setPred f (samplePass exp toDouble shuffle numUser numService dim lmda eta beta st
          (shuffle st.iter st.samples).length)).mem) =
      loss lmda numUser numService dim
        (getPredMatrix exp toDouble false numUser numService dim
          (samplePass exp toDouble shuffle numUser numService dim lmda eta beta st
            (shuffle st.iter st.samples).length).mem) := by
    rw [getPredMatrix_eq, getPredMatrix_eq]
    refine loss_pred_congr lmda numUser numService dim
      (samplePass exp toDouble shuffle numUser numService dim lmda eta beta st
        (shuffle st.iter st.samples).length).mem _ _ ?_
    intro x hx hobs
    have h1 : x < numUser * numService ∧ (false = true ∨
        |(setPred f (samplePass exp toDouble shuffle numUser numService dim lmda eta beta st
          (shuffle st.iter st.samples).length)).mem.removedData x| > EPS) :=
      ⟨hx, Or.inr hobs⟩
    have h2 : x < numUser * numService ∧ (false = true ∨
        |(samplePass exp toDouble shuffle numUser numService dim lmda eta beta st
          (shuffle st.iter st.samples).length).mem.removedData x| > EPS) :=
      ⟨hx, Or.inr hobs⟩
    rw [if_pos h1, if_pos h2]
    rfl
  rw [epoch_eq, epoch_eq]
  have hi : (setPred f st).iter = st.iter := rfl
  have hs : (setPred f st).samples = st.samples := rfl
  rw [hi, hs, samplePass_setPred, hl]
  rw [getPredMatrix_eq, getPredMatrix_eq]
  rfl

theorem afterEpochs_setPred {F : Type} [LinearOrderedField F] (exp toDouble : F → F)
    (shuffle : Nat → List (Sample F) → List (Sample F)) (m : Mem F)
    (numUser numService dim : Nat) (lmda eta beta : F) (f : Nat → F) (n : Nat) :
    ∃ g, afterEpochs exp toDouble shuffle { m with predData := f } numUser numService dim lmda eta
        beta n =
      setPred g (afterEpochs exp toDouble shuffle m numUser numService dim lmda eta beta n) := by
  induction n with
  | zero => exact ⟨f, rfl⟩
  | succ n ih =>
    obtain ⟨g, hg⟩ := ih
    have h1 : afterEpochs exp toDouble shuffle { m with predData := f } numUser numService dim lmda
        eta beta (n + 1) =
        epoch exp toDouble shuffle numUser numService dim lmda eta beta
          (extractSamples m.removedData numUser numService).2
          (afterEpochs exp toDouble shuffle { m with predData := f } numUser numService dim lmda
            eta beta n) := by
      unfold afterEpochs
      rw [Function.iterate_succ_apply']
    have h2 : afterEpochs exp toDouble shuffle m numUser numService dim lmda eta beta (n + 1) =
        epoch exp toDouble shuffle numUser numService dim lmda eta beta
          (extractSamples m.removedData numUser numService).2
          (afterEpochs exp toDouble shuffle m numUser numService dim lmda eta beta n) := by
      unfold afterEpochs
      rw [Function.iterate_succ_apply']
    rw [h1, h2, hg]
    exact epoch_setPred exp toDouble shuffle numUser numService dim lmda eta beta _ g _

theorem loopExits_setPred {F : Type} [LinearOrderedField F] (maxIter : Int)
    (convergeThreshold : F) (g : Nat → F) (st : Locals F) :
    loopExits maxIter convergeThreshold (setPred g st) ↔
      loopExits maxIter convergeThreshold st := Iff.rfl

/-- The number of epochs does not depend on the initial prediction buffer. -/
theorem fit_iter_setPred {F : Type} [LinearOrderedField F] (exp toDouble : F → F)
    (shuffle : Nat → List (Sample F) → List (Sample F)) (m : Mem F)
    (numUser numService dim : Nat) (lmda : F) (maxIter : Int)
    (convergeThreshold eta beta : F) (f : Nat → F) :
    (fit exp toDouble shuffle { m with predData := f } numUser numService dim lmda maxIter
      convergeThreshold eta beta).iter =
    (fit exp toDouble shuffle m numUser numService dim lmda maxIter convergeThreshold eta
        beta).iter := by
  obtain ⟨a1, a2, a3⟩ := fit_first_exit exp toDouble shuffle { m with predData := f } numUser
    numService dim lmda maxIter convergeThreshold eta beta
  obtain ⟨b1, b2, b3⟩ := fit_first_exit exp toDouble shuffle m numUser numService dim lmda maxIter
    convergeThreshold eta beta
  rw [a1] at a2
  rw [b1] at b2
  generalize (fit exp toDouble shuffle { m with predData := f } numUser numService dim lmda maxIter
    convergeThreshold eta beta).iter = d1 at a2 a3 ⊢
  generalize (fit exp toDouble shuffle m numUser numService dim lmda maxIter convergeThreshold
    eta beta).iter = d2 at b2 b3 ⊢
  rcases Nat.lt_trichotomy d1 d2 with h | h | h
  · exfalso
    obtain ⟨g, hg⟩ := afterEpochs_setPred exp toDouble shuffle m numUser numService dim lmda eta
      beta f d1
    rw [hg] at a2
    exact b3 d1 h ((loopExits_setPred maxIter convergeThreshold g _).mp a2)
  · exact h
  · exfalso
    obtain ⟨g, hg⟩ := afterEpochs_setPred exp toDouble shuffle m numUser numService dim lmda eta
      beta f d2
    have := a3 d2 h
    rw [hg] at this
    exact this ((loopExits_setPred maxIter convergeThreshold g _).mpr b2)

theorem fit_setPred {F : Type} [LinearOrderedField F] (exp toDouble : F → F)
    (shuffle : Nat → List (Sample F) → List (Sample F)) (m : Mem F)
    (numUser numService dim : Nat) (lmda : F) (maxIter : Int)
    (convergeThreshold eta beta : F) (f : Nat → F) :
    ∃ g, fit exp toDouble shuffle { m with predData := f } numUser numService dim lmda maxIter
        convergeThreshold eta beta =
      setPred g (fit exp toDouble shuffle m numUser numService dim lmda maxIter convergeThreshold
        eta beta) := by
  have a1 := (fit_first_exit exp toDouble shuffle { m with predData := f } numUser
    numService dim lmda maxIter convergeThreshold eta beta).1
  have b1 := (fit_first_exit exp toDouble shuffle m numUser numService dim lmda maxIter
    convergeThreshold eta beta).1
  rw [fit_iter_setPred] at a1
  obtain ⟨g, hg⟩ := afterEpochs_setPred exp toDouble shuffle m numUser numService dim lmda eta
    beta f (fit exp toDouble shuffle m numUser numService dim lmda maxIter convergeThreshold
      eta beta).iter
  refine ⟨g, ?_⟩
  rw [a1, hg, ← b1]

/-- C20: two calls of `AMF` that differ only in the initial content of the prediction
buffer have the same loss after every epoch, execute the same number of epochs, and
return the same `U`, `S`, `p`, `q` and the same prediction matrix. -/
theorem AMF_predData_independent {F : Type} [LinearOrderedField F] (exp toDouble : F → F)
    (shuffle : Nat → List (Sample F) → List (Sample F)) (m : Mem F)
    (numUser numService dim : Nat) (lmda : F) (maxIter : Int)
    (convergeThreshold eta beta : F) (predData0 : Nat → F) :
    (∀ n,
      (afterEpochs exp toDouble shuffle { m with predData := predData0 } numUser numService dim
        lmda eta beta n).lossValue =
      (afterEpochs exp toDouble shuffle m numUser numService dim lmda eta beta n).lossValue) ∧
    (fit exp toDouble shuffle { m with predData := predData0 } numUser numService dim lmda maxIter
      convergeThreshold eta beta).iter =
      (fit exp toDouble shuffle m numUser numService dim lmda maxIter convergeThreshold
        eta beta).iter ∧
    (AMF exp toDouble shuffle { m with predData := predData0 } numUser numService dim lmda maxIter
      convergeThreshold eta beta).Udata =
      (AMF exp toDouble shuffle m numUser numService dim lmda maxIter convergeThreshold
        eta beta).Udata ∧
    (AMF exp toDouble shuffle { m with predData := predData0 } numUser numService dim lmda maxIter
      convergeThreshold eta beta).Sdata =
      (AMF exp toDouble shuffle m numUser numService dim lmda maxIter convergeThreshold
        eta beta).Sdata ∧
    (AMF exp toDouble shuffle { m with predData := predData0 } numUser numService dim lmda maxIter
      convergeThreshold eta beta).p =
      (AMF exp toDouble shuffle m numUser numService dim lmda maxIter convergeThreshold
        eta beta).p ∧
    (AMF exp toDouble shuffle { m with predData := predData0 } numUser numService dim lmda maxIter
      convergeThreshold eta beta).q =
      (AMF exp toDouble shuffle m numUser numService dim lmda maxIter convergeThreshold
        eta beta).q ∧
    ∀ i j, i < numUser → j < numService →
      vector2Matrix (AMF exp toDouble shuffle { m with predData := predData0 } numUser numService
        dim lmda maxIter convergeThreshold eta beta).predData numUser numService i j =
      vector2Matrix (AMF exp toDouble shuffle m numUser numService dim lmda maxIter
        convergeThreshold eta beta).predData numUser numService i j := by
  obtain ⟨g, hg⟩ := fit_setPred exp toDouble shuffle m numUser numService dim lmda maxIter
    convergeThreshold eta beta predData0
  refine ⟨?_, fit_iter_setPred exp toDouble shuffle m numUser numService dim lmda maxIter
    convergeThreshold eta beta predData0, ?_, ?_, ?_, ?_, ?_⟩
  · intro n
    obtain ⟨g', hg'⟩ := afterEpochs_setPred exp toDouble shuffle m numUser numService dim lmda eta
      beta predData0 n
    rw [hg']
    rfl
  · unfold AMF
    rw [hg, getPredMatrix_eq, getPredMatrix_eq]
    rfl
  · unfold AMF
    rw [hg, getPredMatrix_eq, getPredMatrix_eq]
    rfl
  · unfold AMF
    rw [hg, getPredMatrix_eq, getPredMatrix_eq]
    rfl
  · unfold AMF
    rw [hg, getPredMatrix_eq, getPredMatrix_eq]
    rfl
  · intro i j hi hj
    rw [AMF_predData exp toDouble shuffle _ numUser numService dim lmda maxIter convergeThreshold
      eta beta i j hi hj,
      AMF_predData exp toDouble shuffle m numUser numService dim lmda maxIter convergeThreshold
      eta beta i j hi hj, hg]
    rfl

/-! ## The stopping rule: claim C10 -/

end CAMF
